import Mathlib

/-!
Verification of the topic-extraction pipeline of the Genie prototype.

The development shallowly embeds the Python code of
`logic/topic_extract.py` and `core/utils.py`:

* JSON-like Python values are modelled by `JVal`, with numbers as exact
  rationals;
* Python exceptions are modelled by `PyErr`, and fallible code returns
  `Except PyErr _`;
* the functions `validate_response`, `_distribute_values_proportionally`,
  `process_chunk`, the chunk partitioner of `extract_topics_async` and
  `flatten_hierarchy` are translated statement by statement, preserving
  evaluation order and the exception each construct raises;
* the LLM calls and JSON parsing of raw model output are opaque
  capabilities, passed in as function parameters.
-/

set_option maxHeartbeats 1600000

namespace Genie

/-- JSON-like Python values, as produced by `json.loads` and manipulated by
the pipeline: `None`, booleans, numbers, strings, lists and dicts.  Numbers
are modelled as exact rationals; dicts as ordered key/value lists, looked up
at the first matching key. -/
inductive JVal : Type where
  | null : JVal
  | bool (b : Bool) : JVal
  | num (q : ℚ) : JVal
  | str (s : String) : JVal
  | arr (xs : List JVal) : JVal
  | obj (kvs : List (String × JVal)) : JVal
deriving Repr

/-- The Python exceptions that the embedded code can raise. -/
inductive PyErr : Type where
  | keyError : PyErr
  | typeError : PyErr
  | attributeError : PyErr
  | valueError : PyErr
  | zeroDivisionError : PyErr
  | jsonDecodeError : PyErr
deriving DecidableEq, Repr

/-- Python subscripting `v[k]` with a string key: dict lookup (raising
`KeyError` when the key is absent); every other value raises `TypeError`. -/
def getItem (v : JVal) (k : String) : Except PyErr JVal :=
  match v with
  | .obj kvs =>
    match kvs.lookup k with
    | some x => .ok x
    | none => .error .keyError
  | _ => .error .typeError

/-- Python iteration `for x in v`: lists yield their elements, strings yield
one-character strings, dicts yield their keys; other values raise
`TypeError`. -/
def pyIter (v : JVal) : Except PyErr (List JVal) :=
  match v with
  | .arr xs => .ok xs
  | .str s => .ok (s.data.map fun c => .str (String.singleton c))
  | .obj kvs => .ok (kvs.map fun kv => .str kv.1)
  | _ => .error .typeError

/-- Does the character list `s` start with `k`? -/
def listStartsWith : List Char → List Char → Bool
  | _, [] => true
  | [], _ :: _ => false
  | a :: as, b :: bs => a == b && listStartsWith as bs

/-- Does `k` occur as a contiguous run inside `s`? -/
def listHasRun : List Char → List Char → Bool
  | [], k => listStartsWith [] k
  | s@(_ :: tail), k => listStartsWith s k || listHasRun tail k

/-- Python `k in v` for a string `k`: key membership for dicts, element
membership for lists, substring test for strings; other values raise
`TypeError`. -/
def pyContains (k : String) (v : JVal) : Except PyErr Bool :=
  match v with
  | .obj kvs => .ok (kvs.any fun kv => kv.1 == k)
  | .arr xs => .ok (xs.any fun x => match x with | .str s => s == k | _ => false)
  | .str s => .ok (listHasRun s.data k.data)
  | _ => .error .typeError

/-- Python truthiness of a value. -/
def pyTruthy : JVal → Bool
  | .null => false
  | .bool b => b
  | .num q => q != 0
  | .str s => s != ""
  | .arr xs => !xs.isEmpty
  | .obj kvs => !kvs.isEmpty

/-- Python `isinstance(v, (int, float))`.  Booleans satisfy it because
`bool` is a subclass of `int`. -/
def isNumInst : JVal → Bool
  | .num _ => true
  | .bool _ => true
  | _ => false

/-- The numeric value of a number or boolean; `none` otherwise. -/
def numVal : JVal → Option ℚ
  | .num q => some q
  | .bool b => some (if b then 1 else 0)
  | _ => none

/-- Python `round` to an integer on exact rationals: round half to even. -/
def pyRoundInt (q : ℚ) : ℤ :=
  let f : ℤ := ⌊q⌋
  let r : ℚ := q - f
  if r < 1/2 then f
  else if 1/2 < r then f + 1
  else if f % 2 = 0 then f else f + 1

/-- Python `round(q, 2)` on exact rationals. -/
def pyRound2 (q : ℚ) : ℚ := (pyRoundInt (q * 100) : ℚ) / 100

/-- Python `v.get(k, dflt)`: a dict method; any non-dict receiver raises
`AttributeError`. -/
def pyGetD (v : JVal) (k : String) (dflt : JVal) : Except PyErr JVal :=
  match v with
  | .obj kvs =>
    match kvs.lookup k with
    | some x => .ok x
    | none => .ok dflt
  | _ => .error .attributeError

/-- Replace the value at the first occurrence of key `k`, or append the
binding (Python dict assignment on the association-list model). -/
def setPairs (kvs : List (String × JVal)) (k : String) (x : JVal) :
    List (String × JVal) :=
  match kvs with
  | [] => [(k, x)]
  | (k0, v0) :: rest =>
    if k0 == k then (k0, x) :: rest
    else (k0, v0) :: setPairs rest k x

/-- Python `v[k] = x` for a dict `v` (no-op on other values, which the
embedded code never reaches). -/
def setItem (v : JVal) (k : String) (x : JVal) : JVal :=
  match v with
  | .obj kvs => .obj (setPairs kvs k x)
  | w => w

/-- Number of whitespace-separated words of a string:
`len(s.split())` in Python. -/
def wordCount (s : String) : ℕ :=
  ((s.split fun c => c.isWhitespace).filter fun w => !(w == "")).length

/-- List-level evaluation of `wordCount` (the `String.split` implementation
itself is opaque to reduction). -/
theorem wordCount_eval (s : String) :
    wordCount s = (((s.data.splitOnP fun c => c.isWhitespace).map
      String.mk).filter fun w => !(w == "")).length := by
  rw [wordCount, String.split_of_valid]

theorem wordCount_empty : wordCount "" = 0 := by
  rw [wordCount_eval]
  rfl

/-- Python `v.split()` followed by `len`: a string method, so any non-string
receiver raises `AttributeError`. -/
def pyWordCount (v : JVal) : Except PyErr ℕ :=
  match v with
  | .str s => .ok (wordCount s)
  | _ => .error .attributeError

/-! ## The Response Validator

Embedding of `validate_response` (`core/utils.py`), identical to the method
`TopicExtractorAgent._validate_response` (`logic/topic_extract.py`).  The
Python body is a `try` block whose `except KeyError` clause returns `False`;
all other exceptions escape.  Early `return False` statements are modelled by
an `Except PyErr Bool` whose `.ok false` means "returned False". -/

/-- Embedding of `sum(x["value"] for x in items)`, evaluated lazily left to right as the
Python generator is: each item is subscripted (possibly raising `KeyError` or
`TypeError`), then added (raising `TypeError` on a non-numeric value). -/
def sumItemValues : List JVal → ℚ → Except PyErr ℚ
  | [], acc => .ok acc
  | item :: rest, acc =>
    match getItem item "value" with
    | .error e => .error e
    | .ok v =>
      match numVal v with
      | some q => sumItemValues rest (acc + q)
      | none => .error .typeError

/-- Body of the validator's inner loop for one subtopic: if the subtopic has
a `"subsubtopics"` key, compare the 2-decimal roundings of the children's
value sum and the subtopic's own value.  `.ok false` is the early
`return False`. -/
def checkSubsub (sub : JVal) : Except PyErr Bool :=
  match pyContains "subsubtopics" sub with
  | .error e => .error e
  | .ok false => .ok true
  | .ok true =>
    match getItem sub "subsubtopics" with
    | .error e => .error e
    | .ok ssv =>
      match pyIter ssv with
      | .error e => .error e
      | .ok items =>
        match sumItemValues items 0 with
        | .error e => .error e
        | .ok total =>
          match getItem sub "value" with
          | .error e => .error e
          | .ok v =>
            match numVal v with
            | some q => .ok (pyRound2 total == pyRound2 q)
            | none => .error .typeError

/-- The validator's inner loop over subtopics. -/
def loopSubs : List JVal → Except PyErr Bool
  | [] => .ok true
  | sub :: rest =>
    match checkSubsub sub with
    | .error e => .error e
    | .ok false => .ok false
    | .ok true => loopSubs rest

/-- Body of the validator's outer loop for one topic. -/
def checkTopic (topic : JVal) : Except PyErr Bool :=
  match getItem topic "value" with
  | .error e => .error e
  | .ok v =>
    if !isNumInst v then .ok false
    else
      match pyContains "subtopics" topic with
      | .error e => .error e
      | .ok false => .ok true
      | .ok true =>
        match getItem topic "subtopics" with
        | .error e => .error e
        | .ok sv =>
          match pyIter sv with
          | .error e => .error e
          | .ok items =>
            match sumItemValues items 0 with
            | .error e => .error e
            | .ok total =>
              match numVal v with
              | some q =>
                if pyRound2 total == pyRound2 q then loopSubs items
                else .ok false
              | none => .error .typeError

/-- The validator's outer loop over topics. -/
def loopTopics : List JVal → Except PyErr Bool
  | [] => .ok true
  | t :: rest =>
    match checkTopic t with
    | .error e => .error e
    | .ok false => .ok false
    | .ok true => loopTopics rest

/-- Embedding of `validate_response` (`core/utils.py`, also
`TopicExtractorAgent._validate_response`): runs the nested loops and catches
only `KeyError`, turning it into `False`; any other exception propagates. -/
def validate_response (response : JVal) : Except PyErr Bool :=
  let body : Except PyErr Bool :=
    match getItem response "topics" with
    | .error e => .error e
    | .ok topics =>
      match pyIter topics with
      | .error e => .error e
      | .ok items => loopTopics items
  match body with
  | .ok b => .ok b
  | .error .keyError => .ok false
  | .error e => .error e

/-! ## The Analyzer's weight-repair step

Embedding of `TopicExtractorAgent._distribute_values_proportionally`
(`logic/topic_extract.py`).  The Python code mutates the parsed dict in
place and returns it; on an exception the partially mutated value is
discarded by the caller, so the embedding returns the new value through
`Except`. -/

/-- Embedding of `len(x["citation"].split())` for one child. -/
def citWordCount (v : JVal) : Except PyErr ℕ :=
  match getItem v "citation" with
  | .error e => .error e
  | .ok cit => pyWordCount cit

/-- Embedding of `sum(len(x["citation"].split()) for x in items)`, lazily left
to right. -/
def totalCitWords : List JVal → ℕ → Except PyErr ℕ
  | [], acc => .ok acc
  | v :: rest, acc =>
    match citWordCount v with
    | .error e => .error e
    | .ok n => totalCitWords rest (acc + n)

/-- A Python `for` loop that rewrites each element in turn, stopping at the
first exception. -/
def eachElem (f : JVal → Except PyErr JVal) : List JVal → Except PyErr (List JVal)
  | [] => .ok []
  | x :: xs =>
    match f x with
    | .error e => .error e
    | .ok y =>
      match eachElem f xs with
      | .error e => .error e
      | .ok ys => .ok (y :: ys)

@[simp] theorem eachElem_nil (f : JVal → Except PyErr JVal) :
    eachElem f [] = .ok [] := rfl

/-- Body of the innermost loop: set one sub-subtopic's value to
`round((its citation words / total) * parent value, 2)`.  A zero total
raises `ZeroDivisionError`, as Python's `/` does. -/
def distribSubsub (total : ℕ) (parentVal : ℚ) (subsub : JVal) :
    Except PyErr JVal :=
  match citWordCount subsub with
  | .error e => .error e
  | .ok n =>
    if total = 0 then .error .zeroDivisionError
    else .ok (setItem subsub "value"
      (.num (pyRound2 ((n : ℚ) / (total : ℚ) * parentVal))))

/-- Body of the middle loop: rescale one subtopic's value by citation-word
proportion of the (already rounded) topic value, then rescale its
sub-subtopics against the subtopic's new value. -/
def distribSub (total : ℕ) (topicVal : ℚ) (sub : JVal) : Except PyErr JVal :=
  match citWordCount sub with
  | .error e => .error e
  | .ok n =>
    if total = 0 then .error .zeroDivisionError
    else
      let newVal := pyRound2 ((n : ℚ) / (total : ℚ) * topicVal)
      let sub1 := setItem sub "value" (.num newVal)
      match pyContains "subsubtopics" sub1 with
      | .error e => .error e
      | .ok false => .ok sub1
      | .ok true =>
        match getItem sub1 "subsubtopics" with
        | .error e => .error e
        | .ok ssv =>
          match pyIter ssv with
          | .error e => .error e
          | .ok items =>
            match totalCitWords items 0 with
            | .error e => .error e
            | .ok ssTotal =>
              match eachElem (distribSubsub ssTotal newVal) items with
              | .error e => .error e
              | .ok newItems =>
                match ssv with
                | .arr _ => .ok (setItem sub1 "subsubtopics" (.arr newItems))
                | _ => .ok sub1

/-- Body of the outer loop for one topic: evaluate
`len(topic.get("citation", "").split())` (unused, but its exceptions are
real), round the topic's own value to 2 decimals, then rescale the
subtopics if the `"subtopics"` key is present. -/
def distribTopic (topic : JVal) : Except PyErr JVal :=
  match pyGetD topic "citation" (.str "") with
  | .error e => .error e
  | .ok cit =>
    match pyWordCount cit with
    | .error e => .error e
    | .ok _ =>
      match getItem topic "value" with
      | .error e => .error e
      | .ok v =>
        match numVal v with
        | none => .error .typeError
        | some q =>
          let newVal := pyRound2 q
          let topic1 := setItem topic "value" (.num newVal)
          match pyContains "subtopics" topic1 with
          | .error e => .error e
          | .ok false => .ok topic1
          | .ok true =>
            match getItem topic1 "subtopics" with
            | .error e => .error e
            | .ok sv =>
              match pyIter sv with
              | .error e => .error e
              | .ok items =>
                match totalCitWords items 0 with
                | .error e => .error e
                | .ok total =>
                  match eachElem (distribSub total newVal) items with
                  | .error e => .error e
                  | .ok newItems =>
                    match sv with
                    | .arr _ => .ok (setItem topic1 "subtopics" (.arr newItems))
                    | _ => .ok topic1

/-- Embedding of `_distribute_values_proportionally`: the weight-repair step applied to
each parsed per-chunk tree between parsing and validation. -/
def distribute_values (data : JVal) : Except PyErr JVal :=
  match getItem data "topics" with
  | .error e => .error e
  | .ok topics =>
    match pyIter topics with
    | .error e => .error e
    | .ok items =>
      match eachElem distribTopic items with
      | .error e => .error e
      | .ok newItems =>
        match topics with
        | .arr _ => .ok (setItem data "topics" (.arr newItems))
        | _ => .ok data

/-! ## Per-chunk processing and the pipeline driver -/

/-- Embedding of `process_chunk` (`logic/topic_extract.py`): the whole body runs inside a
`try` whose `except Exception` clause returns `None`.  The retrieval plus
LLM call is the opaque `callResult`; parsing of the raw model output is the
opaque `parse` (an `.error` either is the inner `except json.JSONDecodeError`
returning `None`, or reaches the outer handler — `None` both ways).  A tree
that fails `_distribute_values_proportionally` or `_validate_response`
(by returning `False` or by raising) also yields `None`. -/
def process_chunk (callResult : Except PyErr String)
    (parse : String → Except PyErr JVal) : Option JVal :=
  match callResult with
  | .error _ => none
  | .ok raw =>
    match parse raw with
    | .error _ => none
    | .ok parsed =>
      match distribute_values parsed with
      | .error _ => none
      | .ok repaired =>
        match validate_response repaired with
        | .ok true => some repaired
        | .ok false => none
        | .error _ => none

/-- Size of chunk `i` in `extract_topics_async`:
`base_chunk_size + (1 if i < remainder else 0)`. -/
def chunkSize (base rem i : ℕ) : ℕ := base + if i < rem then 1 else 0

/-- The slicing loop of `extract_topics_async`: `count` iterations starting
at index `i` and offset `start`, each taking `docs[start : start + size]`. -/
def chunksGo (docs : List α) (base rem : ℕ) : ℕ → ℕ → ℕ → List (List α)
  | _, _, 0 => []
  | i, start, c + 1 =>
    (docs.drop start).take (chunkSize base rem i) ::
      chunksGo docs base rem (i + 1) (start + chunkSize base rem i) c

/-- The Chunk Partitioner of `extract_topics_async`: 8 contiguous slices
with `base_chunk_size = len(docs) // 8` and `remainder = len(docs) % 8`. -/
def partitionDocs (docs : List α) : List (List α) :=
  chunksGo docs (docs.length / 8) (docs.length % 8) 0 0 8

/-! ## The Hierarchy Flattener -/

/-- One record of the flat output list: the dict
`{"id", "parent", "name", "value", "citation", "pages"}` built by
`flatten_hierarchy`. -/
structure FlatRec : Type where
  id : String
  parent : String
  name : JVal
  value : JVal
  citation : JVal
  pages : JVal
deriving Repr

theorem sizeOf_lookup_le (kvs : List (String × JVal)) (k : String) :
    sizeOf (kvs.lookup k) ≤ sizeOf kvs := by
  induction kvs with
  | nil => simp [List.lookup]
  | cons kv rest ih =>
    obtain ⟨k0, v0⟩ := kv
    rw [List.lookup]
    cases hk : k == k0 with
    | true =>
      simp only [Prod.mk.sizeOf_spec, List.cons.sizeOf_spec, Option.some.sizeOf_spec]
      omega
    | false =>
      simp only [Prod.mk.sizeOf_spec, List.cons.sizeOf_spec]
      omega

mutual

/-- Embedding of `flatten_hierarchy` (`core/utils.py`, identical to the method in
`logic/topic_extract.py`): raises `ValueError` on a non-list input, and
otherwise runs the numbering loop over the topics. -/
def flatten_hierarchy (data : JVal) (parent_id : String) :
    Except PyErr (List FlatRec) :=
  match data with
  | .arr topics => flattenTopics topics parent_id 1
  | _ => .error .valueError
termination_by sizeOf data
decreasing_by
  simp only [JVal.arr.sizeOf_spec]
  omega

/-- The loop of `flatten_hierarchy`, with `cur` the running `current_id`.
Each topic is subscripted for `"name"` (raising `KeyError`/`TypeError` on a
malformed node), its record is appended, and a present-and-truthy
`"subtopics"` then `"subsubtopics"` entry is flattened recursively under
this topic's id. -/
def flattenTopics (topics : List JVal) (parent_id : String) (cur : ℕ) :
    Except PyErr (List FlatRec) :=
  match topics with
  | [] => .ok []
  | topic :: rest =>
    let topic_id := if parent_id == "" then toString cur
      else parent_id ++ "." ++ toString cur
    match topic with
    | .obj kvs =>
      match kvs.lookup "name" with
      | none => .error .keyError
      | some nm =>
        let rec0 : FlatRec :=
          ⟨topic_id, parent_id, nm, (kvs.lookup "value").getD (.str ""),
            (kvs.lookup "citation").getD (.str ""),
            (kvs.lookup "pages").getD (.str "")⟩
        match flattenChildList (kvs.lookup "subtopics") topic_id with
        | .error e => .error e
        | .ok subRecs =>
          match flattenChildList (kvs.lookup "subsubtopics") topic_id with
          | .error e => .error e
          | .ok ssRecs =>
            match flattenTopics rest parent_id (cur + 1) with
            | .error e => .error e
            | .ok restRecs => .ok (rec0 :: (subRecs ++ (ssRecs ++ restRecs)))
    | _ => .error .typeError
termination_by sizeOf topics
decreasing_by
  · have := sizeOf_lookup_le kvs "subtopics"
    simp only [List.cons.sizeOf_spec, JVal.obj.sizeOf_spec]
    omega
  · have := sizeOf_lookup_le kvs "subsubtopics"
    simp only [List.cons.sizeOf_spec, JVal.obj.sizeOf_spec]
    omega
  · simp only [List.cons.sizeOf_spec]
    omega

/-- Embedding of `if "subtopics" in topic and topic["subtopics"]: ...extend(...)`:
a present and truthy children entry is flattened under `tid`; an absent or
falsy one contributes nothing. -/
def flattenChildList (entry : Option JVal) (tid : String) :
    Except PyErr (List FlatRec) :=
  match entry with
  | some sv => if pyTruthy sv then flatten_hierarchy sv tid else .ok []
  | none => .ok []
termination_by sizeOf entry
decreasing_by
  simp only [Option.some.sizeOf_spec]
  omega

end

/-- The tail of `extract_topics_async` after the gather barrier: run the
combine call on the surviving per-chunk trees, then flatten its `"topics"`
entry if that entry is a list, else return the empty list (the code merely
prints a diagnostic in that branch).  An exception from the combine call,
from `final_result.get("topics")` on a non-dict, or from the flattener,
propagates to the caller. -/
def mergeStage (combine : List JVal → Except PyErr JVal)
    (all_results : List JVal) : Except PyErr (List FlatRec) :=
  match combine all_results with
  | .error e => .error e
  | .ok final =>
    match pyGetD final "topics" .null with
    | .error e => .error e
    | .ok t =>
      match t with
      | .arr topics => flatten_hierarchy (.arr topics) ""
      | _ => .ok []

/-- Embedding of `extract_topics_async`: partition the documents into 8 chunks, process
each chunk (the retrieval + LLM call for a chunk is the opaque `chunkCall`),
keep the non-`None` results, and hand them to the merge stage. -/
def extract_topics_async (docs : List α)
    (chunkCall : List α → Except PyErr String)
    (parse : String → Except PyErr JVal)
    (combine : List JVal → Except PyErr JVal) : Except PyErr (List FlatRec) :=
  let results := (partitionDocs docs).map fun chunk =>
    process_chunk (chunkCall chunk) parse
  let all_results := results.filterMap id
  mergeStage combine all_results

/-! ## Structured trees conforming to the prompt's JSON schema

The claims quantify over three-level topic trees.  `N1`/`N2`/`N3` are the
schema's node shapes (topic / subtopic / sub-subtopic); `encodeN1` etc.
inject them into the `JVal` world the code operates on.  A top-level `N1`
node is also allowed an off-schema `subsubtopics` list so that the
both-kinds-of-children case can be stated. -/

/-- A sub-subtopic node (a leaf of the schema). -/
structure N3 : Type where
  name : String
  value : ℚ
  citation : String
  pages : String
deriving DecidableEq

/-- A subtopic node, optionally carrying a `"subsubtopics"` list. -/
structure N2 : Type where
  name : String
  value : ℚ
  citation : String
  pages : String
  subsubtopics : Option (List N3)
deriving DecidableEq

/-- A top-level topic node, optionally carrying a `"subtopics"` list and
(off-schema, but handled by the code) a `"subsubtopics"` list. -/
structure N1 : Type where
  name : String
  value : ℚ
  citation : String
  pages : String
  subtopics : Option (List N2)
  subsubtopics : Option (List N3)
deriving DecidableEq

def encodeN3 (x : N3) : JVal :=
  .obj [("name", .str x.name), ("value", .num x.value),
        ("citation", .str x.citation), ("pages", .str x.pages)]

def encodeN2 (x : N2) : JVal :=
  .obj ([("name", .str x.name), ("value", .num x.value),
         ("citation", .str x.citation), ("pages", .str x.pages)] ++
    (match x.subsubtopics with
     | some l => [("subsubtopics", .arr (l.map encodeN3))]
     | none => []))

def encodeN1 (x : N1) : JVal :=
  .obj ([("name", .str x.name), ("value", .num x.value),
         ("citation", .str x.citation), ("pages", .str x.pages)] ++
    ((match x.subtopics with
      | some l => [("subtopics", .arr (l.map encodeN2))]
      | none => []) ++
     (match x.subsubtopics with
      | some l => [("subsubtopics", .arr (l.map encodeN3))]
      | none => [])))

/-- A parsed model response `{"topics": [...]}` over structured nodes. -/
def encodeDoc (l : List N1) : JVal := .obj [("topics", .arr (l.map encodeN1))]

def sumVals3 (l : List N3) : ℚ := (l.map N3.value).sum

def sumVals2 (l : List N2) : ℚ := (l.map N2.value).sum

/-! ## What the validator actually checks on schema-conforming trees -/

/-- The check the validator applies to one subtopic: if it carries a
`"subsubtopics"` key, the 2-decimal rounding of the children's value sum
must equal the 2-decimal rounding of its own value. -/
def roundCheckN2 (x : N2) : Bool :=
  match x.subsubtopics with
  | none => true
  | some cs => pyRound2 (sumVals3 cs) == pyRound2 x.value

/-- The check the validator applies to one top-level topic: if it carries a
`"subtopics"` key, the rounded children sum must equal its rounded value and
every subtopic must pass `roundCheckN2`.  A `"subsubtopics"` list directly
on a top-level node is never examined. -/
def roundCheckN1 (x : N1) : Bool :=
  match x.subtopics with
  | none => true
  | some cs => (pyRound2 (sumVals2 cs) == pyRound2 x.value) && cs.all roundCheckN2

def roundCheckTop (l : List N1) : Bool := l.all roundCheckN1

theorem sumItemValues_encodeN3 (l : List N3) (acc : ℚ) :
    sumItemValues (l.map encodeN3) acc = .ok (acc + sumVals3 l) := by
  induction l generalizing acc with
  | nil => simp [sumItemValues, sumVals3]
  | cons x xs ih =>
    simp [sumItemValues, encodeN3, getItem, List.lookup, numVal, ih, sumVals3,
      add_assoc]

theorem sumItemValues_encodeN2 (l : List N2) (acc : ℚ) :
    sumItemValues (l.map encodeN2) acc = .ok (acc + sumVals2 l) := by
  induction l generalizing acc with
  | nil => simp [sumItemValues, sumVals2]
  | cons x xs ih =>
    simp [sumItemValues, encodeN2, getItem, List.lookup, numVal, ih, sumVals2,
      add_assoc]

theorem checkSubsub_encodeN2 (x : N2) :
    checkSubsub (encodeN2 x) = .ok (roundCheckN2 x) := by
  cases h : x.subsubtopics with
  | none =>
    simp [checkSubsub, encodeN2, h, pyContains, roundCheckN2]
  | some cs =>
    simp [checkSubsub, encodeN2, h, pyContains, getItem, List.lookup, pyIter,
      sumItemValues_encodeN3, numVal, roundCheckN2]

theorem loopSubs_encodeN2 (l : List N2) :
    loopSubs (l.map encodeN2) = .ok (l.all roundCheckN2) := by
  induction l with
  | nil => simp [loopSubs]
  | cons x xs ih =>
    cases h : roundCheckN2 x with
    | false => simp [loopSubs, checkSubsub_encodeN2, h]
    | true => simp [loopSubs, checkSubsub_encodeN2, h, ih]

theorem checkTopic_encodeN1 (x : N1) :
    checkTopic (encodeN1 x) = .ok (roundCheckN1 x) := by
  cases h : x.subtopics with
  | none =>
    cases h2 : x.subsubtopics with
    | none => simp [checkTopic, encodeN1, h, h2, getItem, List.lookup, numVal,
        isNumInst, pyContains, roundCheckN1]
    | some cs => simp [checkTopic, encodeN1, h, h2, getItem, List.lookup, numVal,
        isNumInst, pyContains, roundCheckN1]
  | some cs =>
    cases h2 : x.subsubtopics with
    | none =>
      cases hb : pyRound2 (sumVals2 cs) == pyRound2 x.value with
      | false => simp [checkTopic, encodeN1, h, h2, getItem, List.lookup, numVal,
          isNumInst, pyContains, pyIter, sumItemValues_encodeN2, hb, roundCheckN1]
      | true => simp [checkTopic, encodeN1, h, h2, getItem, List.lookup, numVal,
          isNumInst, pyContains, pyIter, sumItemValues_encodeN2, hb,
          loopSubs_encodeN2, roundCheckN1]
    | some ss =>
      cases hb : pyRound2 (sumVals2 cs) == pyRound2 x.value with
      | false => simp [checkTopic, encodeN1, h, h2, getItem, List.lookup, numVal,
          isNumInst, pyContains, pyIter, sumItemValues_encodeN2, hb, roundCheckN1]
      | true => simp [checkTopic, encodeN1, h, h2, getItem, List.lookup, numVal,
          isNumInst, pyContains, pyIter, sumItemValues_encodeN2, hb,
          loopSubs_encodeN2, roundCheckN1]

theorem loopTopics_encodeN1 (l : List N1) :
    loopTopics (l.map encodeN1) = .ok (l.all roundCheckN1) := by
  induction l with
  | nil => simp [loopTopics]
  | cons x xs ih =>
    cases h : roundCheckN1 x with
    | false => simp [loopTopics, checkTopic_encodeN1, h]
    | true => simp [loopTopics, checkTopic_encodeN1, h, ih]

/-- On any schema-conforming tree the validator returns normally, and its
verdict is exactly the round-equality check. -/
theorem validate_encodeDoc (l : List N1) :
    validate_response (encodeDoc l) = .ok (roundCheckTop l) := by
  simp [validate_response, encodeDoc, getItem, List.lookup, pyIter,
    loopTopics_encodeN1, roundCheckTop]

/-! ## What the weight-repair step actually does on schema-conforming trees -/

def totalWords3 (l : List N3) : ℕ := (l.map fun x => wordCount x.citation).sum

def totalWords2 (l : List N2) : ℕ := (l.map fun x => wordCount x.citation).sum

/-- Effect of the innermost loop on one sub-subtopic. -/
def repairN3 (total : ℕ) (pv : ℚ) (x : N3) : N3 :=
  { x with value := pyRound2 ((wordCount x.citation : ℚ) / (total : ℚ) * pv) }

/-- Effect of the middle loop on one subtopic: its value becomes its
citation-word share of the parent value, and its sub-subtopics are rescaled
against that new value. -/
def repairN2 (total : ℕ) (pv : ℚ) (x : N2) : N2 :=
  let newVal := pyRound2 ((wordCount x.citation : ℚ) / (total : ℚ) * pv)
  ⟨x.name, newVal, x.citation, x.pages,
    x.subsubtopics.map fun m => m.map (repairN3 (totalWords3 m) newVal)⟩

/-- Effect of the outer loop on one topic: its own value is merely rounded
to 2 decimals — never rescaled — and its subtopics are redistributed by
citation word count; a topic-level `"subsubtopics"` list is not touched. -/
def repairN1 (x : N1) : N1 :=
  let newVal := pyRound2 x.value
  ⟨x.name, newVal, x.citation, x.pages,
    x.subtopics.map fun l => l.map (repairN2 (totalWords2 l) newVal),
    x.subsubtopics⟩

/-- Every nonempty sub-subtopics list of the node has a positive total
citation word count (otherwise the code raises `ZeroDivisionError`). -/
def posTotalsN2 (x : N2) : Prop :=
  ∀ m, x.subsubtopics = some m → m ≠ [] → totalWords3 m ≠ 0

/-- Every nonempty children list under the topic has a positive total
citation word count. -/
def posTotalsN1 (x : N1) : Prop :=
  ∀ l, x.subtopics = some l →
    (l ≠ [] → totalWords2 l ≠ 0) ∧ ∀ s ∈ l, posTotalsN2 s

theorem citWordCount_encodeN3 (x : N3) :
    citWordCount (encodeN3 x) = .ok (wordCount x.citation) := by
  simp [citWordCount, encodeN3, getItem, List.lookup, pyWordCount]

theorem citWordCount_encodeN2 (x : N2) :
    citWordCount (encodeN2 x) = .ok (wordCount x.citation) := by
  cases h : x.subsubtopics <;>
    simp [citWordCount, encodeN2, h, getItem, List.lookup, pyWordCount]

theorem totalCitWords_encodeN3 (l : List N3) (acc : ℕ) :
    totalCitWords (l.map encodeN3) acc = .ok (acc + totalWords3 l) := by
  induction l generalizing acc with
  | nil => simp [totalCitWords, totalWords3]
  | cons x xs ih =>
    simp [totalCitWords, citWordCount_encodeN3, ih, totalWords3, add_assoc]

theorem totalCitWords_encodeN2 (l : List N2) (acc : ℕ) :
    totalCitWords (l.map encodeN2) acc = .ok (acc + totalWords2 l) := by
  induction l generalizing acc with
  | nil => simp [totalCitWords, totalWords2]
  | cons x xs ih =>
    simp [totalCitWords, citWordCount_encodeN2, ih, totalWords2, add_assoc]

theorem distribSubsub_encodeN3 (t : ℕ) (pv : ℚ) (x : N3) (ht : t ≠ 0) :
    distribSubsub t pv (encodeN3 x) = .ok (encodeN3 (repairN3 t pv x)) := by
  obtain ⟨n, v, c, p⟩ := x
  simp [distribSubsub, citWordCount, getItem, List.lookup, pyWordCount, ht,
    encodeN3, setItem, setPairs, repairN3]

theorem eachElem_distribSubsub (t : ℕ) (pv : ℚ) (m : List N3) (ht : t ≠ 0) :
    eachElem (distribSubsub t pv) (m.map encodeN3) =
      .ok ((m.map (repairN3 t pv)).map encodeN3) := by
  induction m with
  | nil => rfl
  | cons x xs ih =>
    rw [List.map_cons, eachElem, distribSubsub_encodeN3 t pv x ht, ih]
    simp

theorem distribSub_encodeN2 (t : ℕ) (pv : ℚ) (x : N2) (ht : t ≠ 0)
    (hx : posTotalsN2 x) :
    distribSub t pv (encodeN2 x) = .ok (encodeN2 (repairN2 t pv x)) := by
  obtain ⟨n, v, c, p, ss⟩ := x
  cases ss with
  | none =>
    simp [distribSub, citWordCount, getItem, List.lookup, pyWordCount, ht,
      encodeN2, pyContains, setItem, setPairs, repairN2]
  | some m =>
    rcases eq_or_ne m [] with rfl | hm
    · simp [distribSub, citWordCount, getItem, List.lookup, pyWordCount, ht,
        encodeN2, pyContains, pyIter, totalCitWords, setItem, setPairs,
        repairN2]
    · have htot : totalWords3 m ≠ 0 := hx m rfl hm
      simp [distribSub, citWordCount, getItem, List.lookup, pyWordCount, ht,
        encodeN2, pyContains, pyIter, totalCitWords_encodeN3,
        eachElem_distribSubsub _ _ _ htot, setItem, setPairs, repairN2]

theorem eachElem_distribSub (t : ℕ) (pv : ℚ) (l : List N2) (ht : t ≠ 0)
    (hx : ∀ s ∈ l, posTotalsN2 s) :
    eachElem (distribSub t pv) (l.map encodeN2) =
      .ok ((l.map (repairN2 t pv)).map encodeN2) := by
  induction l with
  | nil => rfl
  | cons x xs ih =>
    rw [List.map_cons, eachElem, distribSub_encodeN2 t pv x ht (hx x (by simp)),
      ih fun s hs => hx s (List.mem_cons_of_mem _ hs)]
    simp

theorem distribTopic_encodeN1 (x : N1) (hx : posTotalsN1 x) :
    distribTopic (encodeN1 x) = .ok (encodeN1 (repairN1 x)) := by
  obtain ⟨n, v, c, p, subs, ssubs⟩ := x
  cases subs with
  | none =>
    cases ssubs with
    | none => simp [distribTopic, encodeN1, pyGetD, List.lookup,
        pyWordCount, getItem, numVal, pyContains, setItem, setPairs, repairN1]
    | some m => simp [distribTopic, encodeN1, pyGetD, List.lookup,
        pyWordCount, getItem, numVal, pyContains, setItem, setPairs, repairN1]
  | some l =>
    have hl := hx l rfl
    rcases eq_or_ne l [] with rfl | hne
    · cases ssubs with
      | none => simp [distribTopic, encodeN1, pyGetD, List.lookup,
          pyWordCount, getItem, numVal, pyContains, pyIter, totalCitWords,
          setItem, setPairs, repairN1]
      | some m => simp [distribTopic, encodeN1, pyGetD, List.lookup,
          pyWordCount, getItem, numVal, pyContains, pyIter, totalCitWords,
          setItem, setPairs, repairN1]
    · have htot := hl.1 hne
      have hmap := eachElem_distribSub (totalWords2 l) (pyRound2 v) l htot hl.2
      cases ssubs with
      | none => simp [distribTopic, encodeN1, pyGetD, List.lookup,
          pyWordCount, getItem, numVal, pyContains, pyIter, totalCitWords_encodeN2,
          hmap, setItem, setPairs, repairN1]
      | some m => simp [distribTopic, encodeN1, pyGetD, List.lookup,
          pyWordCount, getItem, numVal, pyContains, pyIter, totalCitWords_encodeN2,
          hmap, setItem, setPairs, repairN1]

/-- On a schema-conforming tree whose nonempty children lists all have
positive citation word totals, the weight-repair step succeeds and acts as
`repairN1` on every topic. -/
theorem distribute_encodeDoc (l : List N1) (h : ∀ x ∈ l, posTotalsN1 x) :
    distribute_values (encodeDoc l) = .ok (encodeDoc (l.map repairN1)) := by
  have hmap : eachElem distribTopic (l.map encodeN1) =
      .ok ((l.map repairN1).map encodeN1) := by
    induction l with
    | nil => rfl
    | cons x xs ih =>
      rw [List.map_cons, eachElem, distribTopic_encodeN1 x (h x (by simp)),
        ih fun s hs => h s (List.mem_cons_of_mem _ hs)]
      simp
  simp [distribute_values, encodeDoc, getItem, List.lookup, pyIter, hmap,
    setItem, setPairs]

/-! ## Partitioner facts -/

/-- Sum of `count` consecutive chunk sizes starting at index `i`. -/
def sumSizes (base rem : ℕ) : ℕ → ℕ → ℕ
  | _, 0 => 0
  | i, c + 1 => chunkSize base rem i + sumSizes base rem (i + 1) c

theorem sumSizes_eight (N : ℕ) : sumSizes (N / 8) (N % 8) 0 8 = N := by
  have h8 : N % 8 < 8 := Nat.mod_lt _ (by norm_num)
  simp only [sumSizes, chunkSize]
  split_ifs <;> omega

theorem chunksGo_length (docs : List α) (b r : ℕ) :
    ∀ c i s, (chunksGo docs b r i s c).length = c := by
  intro c
  induction c with
  | zero => intro i s; rfl
  | succ c ih => intro i s; simp [chunksGo, ih]

theorem chunksGo_flatten (docs : List α) (b r : ℕ) :
    ∀ c i s, (chunksGo docs b r i s c).flatten =
      (docs.drop s).take (sumSizes b r i c) := by
  intro c
  induction c with
  | zero => intro i s; simp [chunksGo, sumSizes]
  | succ c ih =>
    intro i s
    rw [chunksGo, List.flatten_cons, ih (i + 1) (s + chunkSize b r i), sumSizes,
      List.take_add]
    congr 1
    rw [List.drop_drop]

theorem chunksGo_lengths (docs : List α) (b r : ℕ) :
    ∀ c i s, s + sumSizes b r i c ≤ docs.length →
      (chunksGo docs b r i s c).map List.length =
        (List.range c).map fun j => chunkSize b r (i + j) := by
  intro c
  induction c with
  | zero => intro i s _; rfl
  | succ c ih =>
    intro i s hs
    rw [sumSizes] at hs
    rw [chunksGo, List.map_cons, List.range_succ_eq_map, List.map_cons,
      List.map_map]
    congr 1
    · rw [List.length_take, List.length_drop]
      simp only [Nat.add_zero]
      omega
    · rw [ih (i + 1) (s + chunkSize b r i) (by omega)]
      apply List.map_congr_left
      intro j _
      simp only [Function.comp_apply, Nat.succ_eq_add_one]
      congr 1
      omega

theorem partitionDocs_length (docs : List α) : (partitionDocs docs).length = 8 :=
  chunksGo_length docs _ _ 8 0 0

theorem partitionDocs_flatten (docs : List α) :
    (partitionDocs docs).flatten = docs := by
  rw [partitionDocs, chunksGo_flatten docs _ _ 8 0 0, sumSizes_eight,
    List.drop_zero, List.take_length]

theorem partitionDocs_lengths (docs : List α) :
    (partitionDocs docs).map List.length =
      (List.range 8).map fun i =>
        docs.length / 8 + if i < docs.length % 8 then 1 else 0 := by
  rw [partitionDocs, chunksGo_lengths docs _ _ 8 0 0 (by
    rw [sumSizes_eight]; omega)]
  apply List.map_congr_left
  intro j _
  simp [chunkSize]

theorem partitionDocs_sum (docs : List α) :
    ((partitionDocs docs).map List.length).sum = docs.length := by
  rw [← List.length_flatten, partitionDocs_flatten]

/-! ## Decimal numerals

Facts about `Nat.toDigits`/`toString` on naturals, needed to reason about
the dotted ids produced by the flattener: a decimal numeral is nonempty,
contains only digit characters (in particular no dot), and is an injective
function of the number. -/

theorem length_le_toDigitsCore (b : ℕ) :
    ∀ (f n : ℕ) (ds : List Char),
      ds.length ≤ (Nat.toDigitsCore b f n ds).length := by
  intro f
  induction f with
  | zero => intro n ds; exact le_refl _
  | succ f ih =>
    intro n ds
    rw [Nat.toDigitsCore]
    split
    · simp
    · exact le_trans (by simp) (ih _ _)

theorem toDigitsCore_append (b : ℕ) (hb : 2 ≤ b) :
    ∀ (f n : ℕ) (ds : List Char), n < b ^ f →
      Nat.toDigitsCore b f n ds = Nat.toDigitsCore b f n [] ++ ds := by
  intro f
  induction f with
  | zero =>
    intro n ds h
    simp [Nat.toDigitsCore]
  | succ f ih =>
    intro n ds h
    rw [Nat.toDigitsCore]
    conv_rhs => rw [Nat.toDigitsCore]
    by_cases h0 : n / b = 0
    · simp [h0]
    · have hn : n / b < b ^ f := by
        rw [Nat.div_lt_iff_lt_mul (by omega : 0 < b)]
        calc n < b ^ (f + 1) := h
        _ = b ^ f * b := by rw [pow_succ]
      simp only [h0, if_false]
      rw [ih (n / b) (Nat.digitChar (n % b) :: ds) hn,
        ih (n / b) [Nat.digitChar (n % b)] hn, List.append_assoc,
        List.singleton_append]

theorem toDigitsCore_fuel (b : ℕ) (hb : 2 ≤ b) :
    ∀ (f g n : ℕ), n < b ^ f → n < b ^ g → 0 < f → 0 < g →
      Nat.toDigitsCore b f n [] = Nat.toDigitsCore b g n [] := by
  intro f
  induction f with
  | zero => intro g n _ _ hf _; omega
  | succ f ih =>
    intro g n hnf hng hf hg
    cases g with
    | zero => omega
    | succ g =>
      rw [Nat.toDigitsCore]
      conv_rhs => rw [Nat.toDigitsCore]
      by_cases h0 : n / b = 0
      · simp [h0]
      · have hfpos : 0 < f := by
          rcases Nat.eq_zero_or_pos f with rfl | h
          · rw [pow_one] at hnf
            exact absurd (Nat.div_eq_of_lt hnf) h0
          · exact h
        have hgpos : 0 < g := by
          rcases Nat.eq_zero_or_pos g with rfl | h
          · rw [pow_one] at hng
            exact absurd (Nat.div_eq_of_lt hng) h0
          · exact h
        have hnf2 : n / b < b ^ f := by
          rw [Nat.div_lt_iff_lt_mul (by omega : 0 < b)]
          calc n < b ^ (f + 1) := hnf
          _ = b ^ f * b := by rw [pow_succ]
        have hng2 : n / b < b ^ g := by
          rw [Nat.div_lt_iff_lt_mul (by omega : 0 < b)]
          calc n < b ^ (g + 1) := hng
          _ = b ^ g * b := by rw [pow_succ]
        simp only [h0, if_false]
        rw [toDigitsCore_append b hb f (n / b) _ hnf2,
          toDigitsCore_append b hb g (n / b) _ hng2,
          ih g (n / b) hnf2 hng2 hfpos hgpos]

theorem lt_ten_pow (n : ℕ) : n < 10 ^ n :=
  Nat.lt_pow_self (by norm_num) n

theorem toDigits_small {n : ℕ} (h : n < 10) :
    Nat.toDigits 10 n = [Nat.digitChar n] := by
  rw [Nat.toDigits, Nat.toDigitsCore]
  simp [Nat.div_eq_of_lt h, Nat.mod_eq_of_lt h]

theorem toDigits_step {n : ℕ} (h : 10 ≤ n) :
    Nat.toDigits 10 n =
      Nat.toDigits 10 (n / 10) ++ [Nat.digitChar (n % 10)] := by
  have h0 : n / 10 ≠ 0 := by
    intro hz
    have := Nat.div_eq_of_lt (show n < 10 by omega)
    omega
  have hdiv : n / 10 < 10 ^ n := lt_of_lt_of_le
    (Nat.div_lt_self (by omega) (by norm_num)) (le_of_lt (lt_ten_pow n))
  rw [Nat.toDigits, Nat.toDigitsCore]
  simp only [h0, if_false]
  rw [toDigitsCore_append 10 (by norm_num) n (n / 10) _ hdiv,
    toDigitsCore_fuel 10 (by norm_num) n (n / 10 + 1) (n / 10) hdiv
      (lt_of_lt_of_le (lt_ten_pow (n / 10)) (Nat.pow_le_pow_right (by norm_num)
        (Nat.le_succ _))) (by omega) (by omega), Nat.toDigits]

theorem toDigits_chars (n : ℕ) :
    ∀ c ∈ Nat.toDigits 10 n, ∃ d, d < 10 ∧ c = Nat.digitChar d := by
  induction n using Nat.strong_induction_on with
  | _ n ih =>
    rcases lt_or_ge n 10 with h | h
    · rw [toDigits_small h]
      intro c hc
      rw [List.mem_singleton] at hc
      exact ⟨n, h, hc⟩
    · rw [toDigits_step h]
      intro c hc
      rcases List.mem_append.mp hc with hc | hc
      · exact ih (n / 10) (Nat.div_lt_self (by omega) (by norm_num)) c hc
      · rw [List.mem_singleton] at hc
        exact ⟨n % 10, Nat.mod_lt _ (by norm_num), hc⟩

theorem digitChar_ne_dot : ∀ d < 10, Nat.digitChar d ≠ '.' := by decide

theorem dot_not_mem_toDigits (n : ℕ) : '.' ∉ Nat.toDigits 10 n := by
  intro hmem
  obtain ⟨d, hd, hc⟩ := toDigits_chars n '.' hmem
  exact digitChar_ne_dot d hd hc.symm

theorem toDigits_ne_nil (n : ℕ) : Nat.toDigits 10 n ≠ [] := by
  rcases lt_or_ge n 10 with h | h
  · rw [toDigits_small h]; simp
  · rw [toDigits_step h]; simp

def digitVal (c : Char) : ℕ := c.toNat - '0'.toNat

theorem digitVal_digitChar : ∀ d < 10, digitVal (Nat.digitChar d) = d := by
  decide

/-- Left fold reading a digit list back as a number. -/
def parseDigits (acc : ℕ) : List Char → ℕ
  | [] => acc
  | c :: cs => parseDigits (acc * 10 + digitVal c) cs

theorem parseDigits_append (xs ys : List Char) :
    ∀ acc, parseDigits acc (xs ++ ys) = parseDigits (parseDigits acc xs) ys := by
  induction xs with
  | nil => intro acc; rfl
  | cons c cs ih => intro acc; exact ih (acc * 10 + digitVal c)

theorem parseDigits_toDigits (n : ℕ) :
    ∀ acc, parseDigits acc (Nat.toDigits 10 n) =
      acc * 10 ^ (Nat.toDigits 10 n).length + n := by
  induction n using Nat.strong_induction_on with
  | _ n ih =>
    intro acc
    rcases lt_or_ge n 10 with h | h
    · rw [toDigits_small h]
      have hp : parseDigits acc [Nat.digitChar n] =
          acc * 10 + digitVal (Nat.digitChar n) := rfl
      rw [hp, digitVal_digitChar n h, List.length_singleton, pow_one]
    · rw [toDigits_step h, parseDigits_append,
        ih (n / 10) (Nat.div_lt_self (by omega) (by norm_num)) acc]
      have hp : ∀ X : ℕ, parseDigits X [Nat.digitChar (n % 10)] =
          X * 10 + digitVal (Nat.digitChar (n % 10)) := fun X => rfl
      rw [hp, digitVal_digitChar (n % 10) (Nat.mod_lt n (by norm_num : 0 < 10)),
        List.length_append, List.length_singleton, pow_succ, ← mul_assoc]
      have hd := Nat.div_add_mod n 10
      generalize acc * 10 ^ (Nat.toDigits 10 (n / 10)).length = K
      omega

theorem toDigits_inj {m n : ℕ}
    (h : Nat.toDigits 10 m = Nat.toDigits 10 n) : m = n := by
  have hm := parseDigits_toDigits m 0
  have hn := parseDigits_toDigits n 0
  rw [h] at hm
  rw [hm] at hn
  omega

theorem natStr_data (n : ℕ) : (toString n : String).data = Nat.toDigits 10 n := rfl

theorem natStr_inj {m n : ℕ} (h : (toString m : String) = toString n) : m = n := by
  apply toDigits_inj
  rw [← natStr_data, ← natStr_data, h]

theorem natStr_ne_empty (n : ℕ) : (toString n : String) ≠ "" := by
  intro h
  have : (toString n : String).data = [] := by rw [h]
  rw [natStr_data] at this
  exact toDigits_ne_nil n this

/-! ## Flattening as the specification words it

`specTopFrom`/`spec2From`/`spec3From` restate §4.5's ID-assignment rule over
structured trees: pre-order traversal; top-level nodes numbered `1, 2, 3, …`
in array order; each child id `"{parentId}.{childIndex}"` with the index
restarting at 1 inside every children list; `parent` is the parent's id, or
`""` for top-level nodes; `name`, `value`, `citation`, `pages` copied from
the node.  Both children lists of one node use the same parent id and
independent counters. -/

def spec3From : List N3 → String → ℕ → List FlatRec
  | [], _, _ => []
  | x :: xs, pid, k =>
    ⟨pid ++ "." ++ toString k, pid, .str x.name, .num x.value,
      .str x.citation, .str x.pages⟩ :: spec3From xs pid (k + 1)

def spec2From : List N2 → String → ℕ → List FlatRec
  | [], _, _ => []
  | x :: xs, pid, k =>
    (⟨pid ++ "." ++ toString k, pid, .str x.name, .num x.value,
      .str x.citation, .str x.pages⟩ ::
      spec3From (x.subsubtopics.getD []) (pid ++ "." ++ toString k) 1) ++
      spec2From xs pid (k + 1)

def specTopFrom : List N1 → ℕ → List FlatRec
  | [], _ => []
  | x :: xs, k =>
    (⟨toString k, "", .str x.name, .num x.value, .str x.citation,
      .str x.pages⟩ ::
      (spec2From (x.subtopics.getD []) (toString k) 1 ++
        spec3From (x.subsubtopics.getD []) (toString k) 1)) ++
      specTopFrom xs (k + 1)

/-- Flattening of a merged tree, as §4.5 of the specification words it. -/
def specFlatten (l : List N1) : List FlatRec := specTopFrom l 1

theorem dotted_ne_empty (s : String) (n : ℕ) : s ++ "." ++ toString n ≠ "" := by
  intro h
  have hlen := congrArg String.length h
  rw [String.length_append, String.length_append] at hlen
  have h1 : (("." : String)).length = 1 := rfl
  have h0 : (("" : String)).length = 0 := rfl
  omega

theorem flattenTopics_encodeN3 (xs : List N3) (pid : String) (hpid : pid ≠ "") :
    ∀ k, flattenTopics (xs.map encodeN3) pid k = .ok (spec3From xs pid k) := by
  have hb : (pid == "") = false := beq_eq_false_iff_ne.mpr hpid
  induction xs with
  | nil => intro k; simp [flattenTopics, spec3From]
  | cons x xs ih =>
    intro k
    obtain ⟨n, v, c, p⟩ := x
    simp only [List.map_cons, encodeN3]
    rw [flattenTopics]
    simp [hb, List.lookup, flattenChildList, ih, spec3From]

theorem flattenTopics_encodeN2 (xs : List N2) (pid : String) (hpid : pid ≠ "") :
    ∀ k, flattenTopics (xs.map encodeN2) pid k = .ok (spec2From xs pid k) := by
  have hb : (pid == "") = false := beq_eq_false_iff_ne.mpr hpid
  induction xs with
  | nil => intro k; simp [flattenTopics, spec2From]
  | cons x xs ih =>
    intro k
    obtain ⟨n, v, c, p, ss⟩ := x
    cases ss with
    | none =>
      simp only [List.map_cons, encodeN2]
      rw [flattenTopics]
      simp [hb, List.lookup, flattenChildList, ih, spec2From, spec3From]
    | some m =>
      cases m with
      | nil =>
        simp only [List.map_cons, encodeN2]
        rw [flattenTopics]
        simp [hb, List.lookup, flattenChildList, pyTruthy, ih, spec2From,
          spec3From]
      | cons y ys =>
        have h3 := flattenTopics_encodeN3 (y :: ys) (pid ++ "." ++ toString k)
          (dotted_ne_empty pid k) 1
        rw [List.map_cons] at h3
        simp only [List.map_cons, encodeN2]
        rw [flattenTopics]
        simp [hb, List.lookup, flattenChildList, pyTruthy, flatten_hierarchy,
          h3, ih, spec2From]

theorem flattenTopics_encodeN1 (xs : List N1) :
    ∀ k, flattenTopics (xs.map encodeN1) "" k = .ok (specTopFrom xs k) := by
  induction xs with
  | nil => intro k; simp [flattenTopics, specTopFrom]
  | cons x xs ih =>
    intro k
    obtain ⟨n, v, c, p, subs, ssubs⟩ := x
    have hsubs : ∀ m : List N2, flattenChildList (some (.arr (m.map encodeN2)))
        (toString k) = .ok (spec2From m (toString k) 1) := by
      intro m
      cases m with
      | nil => simp [flattenChildList, pyTruthy, spec2From]
      | cons y ys =>
        have h2 := flattenTopics_encodeN2 (y :: ys) (toString k)
          (natStr_ne_empty k) 1
        rw [List.map_cons] at h2
        simp [flattenChildList, pyTruthy, flatten_hierarchy, h2]
    have hssubs : ∀ m : List N3, flattenChildList (some (.arr (m.map encodeN3)))
        (toString k) = .ok (spec3From m (toString k) 1) := by
      intro m
      cases m with
      | nil => simp [flattenChildList, pyTruthy, spec3From]
      | cons y ys =>
        have h3 := flattenTopics_encodeN3 (y :: ys) (toString k)
          (natStr_ne_empty k) 1
        rw [List.map_cons] at h3
        simp [flattenChildList, pyTruthy, flatten_hierarchy, h3]
    cases subs with
    | none =>
      cases ssubs with
      | none =>
        simp only [List.map_cons, encodeN1]
        rw [flattenTopics]
        simp [List.lookup, flattenChildList, ih, specTopFrom, spec2From,
          spec3From]
      | some m2 =>
        simp only [List.map_cons, encodeN1]
        rw [flattenTopics]
        simp [List.lookup, hssubs, ih, specTopFrom, flattenChildList,
          spec2From]
    | some m1 =>
      cases ssubs with
      | none =>
        simp only [List.map_cons, encodeN1]
        rw [flattenTopics]
        simp [List.lookup, hsubs, ih, specTopFrom, flattenChildList,
          spec3From]
      | some m2 =>
        simp only [List.map_cons, encodeN1]
        rw [flattenTopics]
        simp [List.lookup, hsubs, hssubs, ih, specTopFrom]

/-- The code's flattener, on any schema-conforming merged tree, succeeds and
produces exactly the records §4.5 describes. -/
theorem flatten_encode (l : List N1) :
    flatten_hierarchy (.arr (l.map encodeN1)) "" = .ok (specFlatten l) := by
  rw [flatten_hierarchy]
  exact flattenTopics_encodeN1 l 1

/-! ## Dotted-id arithmetic

The ids the flattener assigns are decimal numerals joined by dots.  These
lemmas let parent/child links be decoded from them: a numeral contains no
dot, so the dot structure of an id is unambiguous. -/

/-- Number of dots in a string. -/
def strDots (s : String) : ℕ := s.data.count '.'

theorem strDots_append (a b : String) :
    strDots (a ++ b) = strDots a + strDots b := by
  simp [strDots, String.data_append, List.count_append]

theorem strDots_natStr (n : ℕ) : strDots (toString n) = 0 := by
  rw [strDots, natStr_data, List.count_eq_zero]
  exact dot_not_mem_toDigits n

theorem strDots_dot : strDots "." = 1 := rfl

theorem natStr_ne_dotted (k i j : ℕ) :
    (toString k : String) ≠ toString i ++ "." ++ toString j := by
  intro h
  have := congrArg strDots h
  rw [strDots_natStr, strDots_append, strDots_append, strDots_natStr,
    strDots_natStr, strDots_dot] at this
  omega

theorem dotted_ne_self (s : String) (n : ℕ) : s ≠ s ++ "." ++ toString n := by
  intro h
  have := congrArg String.length h
  rw [String.length_append, String.length_append] at this
  have h1 : (("." : String)).length = 1 := rfl
  omega

theorem string_append_cancel_left {s a b : String} (h : s ++ a = s ++ b) :
    a = b := by
  apply String.ext
  have hd := congrArg String.data h
  rw [String.data_append, String.data_append] at hd
  exact List.append_cancel_left hd

theorem dotted_cancel {pid : String} {a b : ℕ}
    (h : pid ++ "." ++ toString a = pid ++ "." ++ toString b) : a = b := by
  apply natStr_inj
  rw [String.append_assoc, String.append_assoc] at h
  exact string_append_cancel_left (string_append_cancel_left h)

theorem append_dot_cancel :
    ∀ {as cs bs ds : List Char}, '.' ∉ as → '.' ∉ cs →
      as ++ '.' :: bs = cs ++ '.' :: ds → as = cs ∧ bs = ds := by
  intro as
  induction as with
  | nil =>
    intro cs bs ds _ hc h
    cases cs with
    | nil => simp at h; simp [h]
    | cons c cs2 =>
      rw [List.nil_append, List.cons_append, List.cons.injEq] at h
      exact absurd (h.1 ▸ List.mem_cons_self c cs2) hc
  | cons a as2 ih =>
    intro cs bs ds ha hc h
    cases cs with
    | nil =>
      rw [List.nil_append, List.cons_append, List.cons.injEq] at h
      exact absurd (h.1.symm ▸ List.mem_cons_self a as2) ha
    | cons c cs2 =>
      rw [List.cons_append, List.cons_append, List.cons.injEq] at h
      obtain ⟨hresult, hrest⟩ :=
        ih (fun hm => ha (List.mem_cons_of_mem a hm))
          (fun hm => hc (List.mem_cons_of_mem c hm)) h.2
      exact ⟨by rw [h.1, hresult], hrest⟩

theorem dotted_nat_inj {k j1 i j2 : ℕ}
    (h : toString k ++ "." ++ toString j1 = toString i ++ "." ++ toString j2) :
    k = i ∧ j1 = j2 := by
  have hd := congrArg String.data h
  rw [String.data_append, String.data_append, String.data_append,
    String.data_append] at hd
  have hdot : (("." : String)).data = ['.'] := rfl
  rw [hdot, List.append_assoc, List.append_assoc, List.singleton_append,
    List.singleton_append] at hd
  obtain ⟨h1, h2⟩ := append_dot_cancel
    ((natStr_data k) ▸ dot_not_mem_toDigits k)
    ((natStr_data i) ▸ dot_not_mem_toDigits i) hd
  constructor
  · exact natStr_inj (String.ext h1)
  · exact natStr_inj (String.ext h2)

/-! ## Rebuilding the tree from the flat list

`childRecords F pid` reconstructs the parent/child links of a flat list: it
selects the records whose `parent` field is `pid`.  `rebuilt` reads the whole
forest back (three levels, as deep as the schema nests): top-level records
are those with empty parent, and each node's children are the records whose
parent is its id. -/

def childRecords (F : List FlatRec) (pid : String) : List FlatRec :=
  F.filter fun r => r.parent == pid

/-- The rebuilt forest, keeping each node's name: one pair per top-level
record, with its children and grandchildren names. -/
def rebuilt (F : List FlatRec) : List (JVal × List (JVal × List JVal)) :=
  (childRecords F "").map fun r1 =>
    (r1.name, (childRecords F r1.id).map fun r2 =>
      (r2.name, (childRecords F r2.id).map FlatRec.name))

/-- The same shape read off the original structured tree. -/
def skeletonOf (l : List N1) : List (JVal × List (JVal × List JVal)) :=
  l.map fun x =>
    (.str x.name,
      ((x.subtopics.getD []).map fun s =>
        ((.str s.name : JVal),
          (s.subsubtopics.getD []).map fun z => (.str z.name : JVal))) ++
      ((x.subsubtopics.getD []).map fun z => ((.str z.name : JVal), [])))

/-- No node of the tree carries both kinds of children lists (nonempty). -/
def noBothN1 (x : N1) : Prop :=
  x.subtopics.getD [] = [] ∨ x.subsubtopics.getD [] = []

theorem childRecords_nil (pid : String) : childRecords [] pid = [] := rfl

theorem childRecords_append (A B : List FlatRec) (pid : String) :
    childRecords (A ++ B) pid = childRecords A pid ++ childRecords B pid := by
  simp [childRecords]

theorem childRecords_cons (r : FlatRec) (F : List FlatRec) (pid : String) :
    childRecords (r :: F) pid =
      if r.parent = pid then r :: childRecords F pid else childRecords F pid := by
  by_cases h : r.parent = pid
  · simp [childRecords, List.filter_cons, h]
  · simp [childRecords, List.filter_cons, h]

theorem childRecords_cons_eq (r : FlatRec) (F : List FlatRec) (pid : String)
    (h : r.parent = pid) :
    childRecords (r :: F) pid = r :: childRecords F pid := by
  rw [childRecords_cons, if_pos h]

theorem childRecords_cons_ne (r : FlatRec) (F : List FlatRec) (pid : String)
    (h : r.parent ≠ pid) :
    childRecords (r :: F) pid = childRecords F pid := by
  rw [childRecords_cons, if_neg h]

/-- The level-2 row records of a subtopics list (without their nested
sub-subtopic records). -/
def heads2 : List N2 → String → ℕ → List FlatRec
  | [], _, _ => []
  | x :: xs, pid, k =>
    ⟨pid ++ "." ++ toString k, pid, .str x.name, .num x.value,
      .str x.citation, .str x.pages⟩ :: heads2 xs pid (k + 1)

/-- The top row records of the forest. -/
def heads1 : List N1 → ℕ → List FlatRec
  | [], _ => []
  | x :: xs, k =>
    ⟨toString k, "", .str x.name, .num x.value, .str x.citation,
      .str x.pages⟩ :: heads1 xs (k + 1)

/-- The nested sub-subtopic records of the subtopic sitting at position `j`
(positions counted from `k0`). -/
def nested3At : List N2 → String → ℕ → ℕ → List FlatRec
  | [], _, _, _ => []
  | x :: xs, pid, k0, j =>
    if j = k0 then
      spec3From (x.subsubtopics.getD []) (pid ++ "." ++ toString j) 1
    else nested3At xs pid (k0 + 1) j

theorem nested3At_small (pid : String) :
    ∀ (xs : List N2) (k0 j : ℕ), j < k0 → nested3At xs pid k0 j = [] := by
  intro xs
  induction xs with
  | nil => intro k0 j _; rfl
  | cons x xs ih =>
    intro k0 j hj
    rw [nested3At, if_neg (by omega)]
    exact ih (k0 + 1) j (by omega)

theorem childRecords_spec3_self (xs : List N3) (pid : String) :
    ∀ k0, childRecords (spec3From xs pid k0) pid = spec3From xs pid k0 := by
  induction xs with
  | nil => intro k0; rfl
  | cons x xs ih =>
    intro k0
    rw [spec3From, childRecords_cons, if_pos rfl, ih (k0 + 1)]

theorem childRecords_spec3_other (xs : List N3) (pid X : String) (hX : X ≠ pid) :
    ∀ k0, childRecords (spec3From xs pid k0) X = [] := by
  induction xs with
  | nil => intro k0; rfl
  | cons x xs ih =>
    intro k0
    rw [spec3From, childRecords_cons, if_neg (fun h => hX h.symm), ih (k0 + 1)]

theorem childRecords_spec2_self (xs : List N2) (pid : String) :
    ∀ k0, childRecords (spec2From xs pid k0) pid = heads2 xs pid k0 := by
  induction xs with
  | nil => intro k0; rfl
  | cons x xs ih =>
    intro k0
    rw [spec2From, List.cons_append, childRecords_cons, if_pos rfl,
      childRecords_append,
      childRecords_spec3_other (x.subsubtopics.getD [])
        (pid ++ "." ++ toString k0) pid (dotted_ne_self pid k0) 1,
      ih (k0 + 1), heads2, List.nil_append]

theorem childRecords_spec2_none (xs : List N2) (pid X : String) (h1 : X ≠ pid)
    (h2 : ∀ j : ℕ, X ≠ pid ++ "." ++ toString j) :
    ∀ k0, childRecords (spec2From xs pid k0) X = [] := by
  induction xs with
  | nil => intro k0; rfl
  | cons x xs ih =>
    intro k0
    rw [spec2From, List.cons_append, childRecords_cons,
      if_neg (fun h => h1 h.symm), childRecords_append,
      childRecords_spec3_other (x.subsubtopics.getD [])
        (pid ++ "." ++ toString k0) X (h2 k0) 1,
      ih (k0 + 1), List.nil_append]

theorem childRecords_spec2_dotted (xs : List N2) (pid : String) (j : ℕ) :
    ∀ k0, childRecords (spec2From xs pid k0) (pid ++ "." ++ toString j) =
      nested3At xs pid k0 j := by
  induction xs with
  | nil => intro k0; rfl
  | cons x xs ih =>
    intro k0
    rw [spec2From, List.cons_append, childRecords_cons,
      if_neg (fun h => dotted_ne_self pid j h), childRecords_append, ih (k0 + 1),
      nested3At]
    by_cases hj : j = k0
    · subst hj
      rw [if_pos rfl, childRecords_spec3_self _ _ 1,
        nested3At_small pid xs (j + 1) j (by omega), List.append_nil]
    · rw [if_neg hj,
        childRecords_spec3_other (x.subsubtopics.getD [])
          (pid ++ "." ++ toString k0) (pid ++ "." ++ toString j)
          (fun h => hj (dotted_cancel h)) 1, List.nil_append]

/-- The records contributed by one top-level node at position `k`. -/
def segOf (x : N1) (k : ℕ) : List FlatRec :=
  ⟨toString k, "", .str x.name, .num x.value, .str x.citation, .str x.pages⟩ ::
    (spec2From (x.subtopics.getD []) (toString k) 1 ++
      spec3From (x.subsubtopics.getD []) (toString k) 1)

theorem specTopFrom_cons (x : N1) (xs : List N1) (k : ℕ) :
    specTopFrom (x :: xs) k = segOf x k ++ specTopFrom xs (k + 1) := by
  rw [specTopFrom, segOf]

theorem childRecords_seg_empty (x : N1) (k : ℕ) :
    childRecords (segOf x k) "" =
      [⟨toString k, "", .str x.name, .num x.value, .str x.citation,
        .str x.pages⟩] := by
  rw [segOf, childRecords_cons_eq _ _ _ rfl, childRecords_append,
    childRecords_spec2_none _ (toString k) ""
      (fun h => natStr_ne_empty k h.symm)
      (fun j h => dotted_ne_empty (toString k) j h.symm) 1,
    childRecords_spec3_other _ (toString k) ""
      (fun h => natStr_ne_empty k h.symm) 1]
  rfl

theorem childRecords_seg_other1 (x : N1) (k i : ℕ) (hik : i ≠ k) :
    childRecords (segOf x k) (toString i) = [] := by
  rw [segOf, childRecords_cons_ne _ _ _ (fun h => natStr_ne_empty i h.symm),
    childRecords_append,
    childRecords_spec2_none _ (toString k) (toString i)
      (fun h => hik (natStr_inj h))
      (fun j => natStr_ne_dotted i k j) 1,
    childRecords_spec3_other _ (toString k) (toString i)
      (fun h => hik (natStr_inj h)) 1,
    List.append_nil]

theorem childRecords_seg_self1 (x : N1) (k : ℕ) :
    childRecords (segOf x k) (toString k) =
      heads2 (x.subtopics.getD []) (toString k) 1 ++
        spec3From (x.subsubtopics.getD []) (toString k) 1 := by
  rw [segOf, childRecords_cons_ne _ _ _ (fun h => natStr_ne_empty k h.symm),
    childRecords_append, childRecords_spec2_self _ (toString k) 1,
    childRecords_spec3_self _ (toString k) 1]

theorem childRecords_seg_other2 (x : N1) (k i j : ℕ) (hik : i ≠ k) :
    childRecords (segOf x k) (toString i ++ "." ++ toString j) = [] := by
  rw [segOf, childRecords_cons_ne _ _ _
      (fun h => dotted_ne_empty (toString i) j h.symm),
    childRecords_append,
    childRecords_spec2_none _ (toString k) (toString i ++ "." ++ toString j)
      (fun h => natStr_ne_dotted k i j h.symm)
      (fun m h => hik (dotted_nat_inj h).1) 1,
    childRecords_spec3_other _ (toString k) (toString i ++ "." ++ toString j)
      (fun h => natStr_ne_dotted k i j h.symm) 1,
    List.append_nil]

theorem childRecords_seg_self2 (x : N1) (k j : ℕ) :
    childRecords (segOf x k) (toString k ++ "." ++ toString j) =
      nested3At (x.subtopics.getD []) (toString k) 1 j := by
  rw [segOf, childRecords_cons_ne _ _ _
      (fun h => dotted_ne_empty (toString k) j h.symm),
    childRecords_append, childRecords_spec2_dotted _ (toString k) j 1,
    childRecords_spec3_other _ (toString k) (toString k ++ "." ++ toString j)
      (fun h => dotted_ne_self (toString k) j h.symm) 1,
    List.append_nil]

theorem childRecords_top_empty (ls : List N1) :
    ∀ k0, childRecords (specTopFrom ls k0) "" = heads1 ls k0 := by
  induction ls with
  | nil => intro k0; rfl
  | cons x xs ih =>
    intro k0
    rw [specTopFrom_cons, childRecords_append, childRecords_seg_empty,
      ih (k0 + 1), heads1]
    rfl

theorem childRecords_top_other1 (ls : List N1) :
    ∀ k0 i, i < k0 → childRecords (specTopFrom ls k0) (toString i) = [] := by
  induction ls with
  | nil => intro k0 i _; rfl
  | cons x xs ih =>
    intro k0 i hi
    rw [specTopFrom_cons, childRecords_append,
      childRecords_seg_other1 x k0 i (by omega), ih (k0 + 1) i (by omega),
      List.append_nil]

theorem childRecords_top_other2 (ls : List N1) :
    ∀ k0 i j : ℕ, i < k0 →
      childRecords (specTopFrom ls k0) (toString i ++ "." ++ toString j) = [] := by
  induction ls with
  | nil => intro k0 i j _; rfl
  | cons x xs ih =>
    intro k0 i j hi
    rw [specTopFrom_cons, childRecords_append,
      childRecords_seg_other2 x k0 i j (by omega), ih (k0 + 1) i j (by omega),
      List.append_nil]

theorem heads1_mem {r : FlatRec} (ls : List N1) :
    ∀ k0, r ∈ heads1 ls k0 → ∃ i, k0 ≤ i ∧ r.id = toString i := by
  induction ls with
  | nil => intro k0 h; simp [heads1] at h
  | cons x xs ih =>
    intro k0 h
    rw [heads1, List.mem_cons] at h
    rcases h with rfl | h
    · exact ⟨k0, le_refl _, rfl⟩
    · obtain ⟨i, hi, hid⟩ := ih (k0 + 1) h
      exact ⟨i, by omega, hid⟩

theorem heads2_mem {r : FlatRec} (ss : List N2) (pid : String) :
    ∀ j0, r ∈ heads2 ss pid j0 → ∃ j : ℕ, r.id = pid ++ "." ++ toString j := by
  induction ss with
  | nil => intro j0 h; simp [heads2] at h
  | cons s ss ih =>
    intro j0 h
    rw [heads2, List.mem_cons] at h
    rcases h with rfl | h
    · exact ⟨j0, rfl⟩
    · exact ih (j0 + 1) h

theorem spec3From_mem {r : FlatRec} (zs : List N3) (pid : String) :
    ∀ m0, r ∈ spec3From zs pid m0 →
      r.parent = pid ∧ ∃ m : ℕ, r.id = pid ++ "." ++ toString m := by
  induction zs with
  | nil => intro m0 h; simp [spec3From] at h
  | cons z zs ih =>
    intro m0 h
    rw [spec3From, List.mem_cons] at h
    rcases h with rfl | h
    · exact ⟨rfl, m0, rfl⟩
    · exact ih (m0 + 1) h

theorem spec2From_mem {r : FlatRec} (ss : List N2) (pid : String) :
    ∀ j0, r ∈ spec2From ss pid j0 →
      (r.parent = pid ∧ ∃ j : ℕ, r.id = pid ++ "." ++ toString j) ∨
      (∃ j : ℕ, r.parent = pid ++ "." ++ toString j ∧
        ∃ m : ℕ, r.id = pid ++ "." ++ toString j ++ "." ++ toString m) := by
  induction ss with
  | nil => intro j0 h; simp [spec2From] at h
  | cons s ss ih =>
    intro j0 h
    rw [spec2From, List.cons_append, List.mem_cons] at h
    rcases h with rfl | h
    · exact .inl ⟨rfl, j0, rfl⟩
    · rcases List.mem_append.mp h with h | h
      · obtain ⟨hp, m, hid⟩ := spec3From_mem _ _ 1 h
        exact .inr ⟨j0, hp, m, hid⟩
      · exact ih (j0 + 1) h

theorem specTopFrom_mem_parent {r : FlatRec} (ls : List N1) :
    ∀ k0 i : ℕ, r ∈ specTopFrom ls k0 → r.parent = toString i →
      ∃ j : ℕ, r.id = toString i ++ "." ++ toString j := by
  induction ls with
  | nil => intro k0 i h _; simp [specTopFrom] at h
  | cons x xs ih =>
    intro k0 i h hp
    rw [specTopFrom_cons] at h
    rcases List.mem_append.mp h with h | h
    · rw [segOf, List.mem_cons] at h
      rcases h with rfl | h
      · exact absurd hp.symm (natStr_ne_empty i)
      · rcases List.mem_append.mp h with h | h
        · rcases spec2From_mem _ _ 1 h with ⟨hpar, j, hid⟩ | ⟨j, hpar, m, hid⟩
          · rw [hp] at hpar
            rw [← natStr_inj hpar] at hid
            exact ⟨j, hid⟩
          · rw [hp] at hpar
            exact absurd hpar (natStr_ne_dotted i k0 j)
        · obtain ⟨hpar, m, hid⟩ := spec3From_mem _ _ 1 h
          rw [hp] at hpar
          rw [← natStr_inj hpar] at hid
          exact ⟨m, hid⟩
    · exact ih (k0 + 1) i h hp

theorem spec3From_map_name (zs : List N3) (pid : String) :
    ∀ m0, (spec3From zs pid m0).map FlatRec.name =
      zs.map fun z => (.str z.name : JVal) := by
  induction zs with
  | nil => intro m0; rfl
  | cons z zs ih => intro m0; simp [spec3From, ih]

theorem mapH3 (CR : String → List FlatRec) (pid : String) (zs : List N3) :
    ∀ m0, (∀ m : ℕ, m0 ≤ m → CR (pid ++ "." ++ toString m) = []) →
      (spec3From zs pid m0).map
        (fun r => (r.name, (CR r.id).map FlatRec.name)) =
      zs.map fun z => ((.str z.name : JVal), ([] : List JVal)) := by
  induction zs with
  | nil => intro m0 _; rfl
  | cons z zs ih =>
    intro m0 H
    rw [spec3From, List.map_cons]
    simp only [H m0 (le_refl _), List.map_nil]
    rw [ih (m0 + 1) fun m hm => H m (by omega)]
    rfl

theorem mapH2 (CR : String → List FlatRec) (pid : String) (ss : List N2) :
    ∀ j0, (∀ j : ℕ, j0 ≤ j →
        CR (pid ++ "." ++ toString j) = nested3At ss pid j0 j) →
      (heads2 ss pid j0).map
        (fun r => (r.name, (CR r.id).map FlatRec.name)) =
      ss.map fun s => ((.str s.name : JVal),
        (s.subsubtopics.getD []).map fun z => (.str z.name : JVal)) := by
  induction ss with
  | nil => intro j0 _; rfl
  | cons s ss ih =>
    intro j0 H
    rw [heads2, List.map_cons]
    have hhead : CR (pid ++ "." ++ toString j0) =
        spec3From (s.subsubtopics.getD []) (pid ++ "." ++ toString j0) 1 := by
      rw [H j0 (le_refl _), nested3At, if_pos rfl]
    simp only [hhead, spec3From_map_name]
    rw [ih (j0 + 1) fun j hj => by
      rw [H j (by omega), nested3At, if_neg (by omega)]]
    rfl

theorem node_rebuild (x : N1) (k : ℕ) (hx : noBothN1 x) :
    (childRecords (segOf x k) (toString k)).map
      (fun r2 => (r2.name, (childRecords (segOf x k) r2.id).map FlatRec.name)) =
    ((x.subtopics.getD []).map fun s => ((.str s.name : JVal),
      (s.subsubtopics.getD []).map fun z => (.str z.name : JVal))) ++
    ((x.subsubtopics.getD []).map fun z =>
      ((.str z.name : JVal), ([] : List JVal))) := by
  rw [childRecords_seg_self1, List.map_append]
  congr 1
  · exact mapH2 (childRecords (segOf x k)) (toString k) (x.subtopics.getD []) 1
      fun j _ => childRecords_seg_self2 x k j
  · rcases hx with hsub | hss
    · exact mapH3 (childRecords (segOf x k)) (toString k)
        (x.subsubtopics.getD []) 1
        fun m _ => by rw [childRecords_seg_self2 x k m, hsub]; rfl
    · rw [hss]
      rfl

theorem rebuilt_aux (ls : List N1) :
    ∀ k0, (∀ x ∈ ls, noBothN1 x) →
      (heads1 ls k0).map (fun r1 => (r1.name,
        (childRecords (specTopFrom ls k0) r1.id).map fun r2 =>
          (r2.name, (childRecords (specTopFrom ls k0) r2.id).map
            FlatRec.name))) = skeletonOf ls := by
  induction ls with
  | nil => intro k0 _; rfl
  | cons x xs ih =>
    intro k0 hNB
    rw [heads1, List.map_cons, skeletonOf, List.map_cons]
    have hF1 : childRecords (specTopFrom (x :: xs) k0) (toString k0) =
        childRecords (segOf x k0) (toString k0) := by
      rw [specTopFrom_cons, childRecords_append,
        childRecords_top_other1 xs (k0 + 1) k0 (by omega), List.append_nil]
    have hmem : ∀ r2 ∈ childRecords (segOf x k0) (toString k0),
        childRecords (specTopFrom (x :: xs) k0) r2.id =
          childRecords (segOf x k0) r2.id := by
      intro r2 hr2
      rw [childRecords_seg_self1] at hr2
      have hid : ∃ j : ℕ, r2.id = toString k0 ++ "." ++ toString j := by
        rcases List.mem_append.mp hr2 with h | h
        · exact heads2_mem _ _ 1 h
        · exact (spec3From_mem _ _ 1 h).2
      obtain ⟨j, hj⟩ := hid
      rw [hj, specTopFrom_cons, childRecords_append,
        childRecords_top_other2 xs (k0 + 1) k0 j (by omega), List.append_nil]
    congr 1
    · show (JVal.str x.name,
        (childRecords (specTopFrom (x :: xs) k0) (toString k0)).map fun r2 =>
          (r2.name, (childRecords (specTopFrom (x :: xs) k0) r2.id).map
            FlatRec.name)) = _
      rw [hF1, List.map_congr_left fun r2 hr2 => by rw [hmem r2 hr2],
        node_rebuild x k0 (hNB x (List.mem_cons_self x xs))]
    · have hcong : ∀ r1 ∈ heads1 xs (k0 + 1),
          (r1.name, (childRecords (specTopFrom (x :: xs) k0) r1.id).map
            fun r2 => (r2.name,
              (childRecords (specTopFrom (x :: xs) k0) r2.id).map
                FlatRec.name)) =
          (r1.name, (childRecords (specTopFrom xs (k0 + 1)) r1.id).map
            fun r2 => (r2.name,
              (childRecords (specTopFrom xs (k0 + 1)) r2.id).map
                FlatRec.name)) := by
        intro r1 hr1
        obtain ⟨i, hi, hid⟩ := heads1_mem xs (k0 + 1) hr1
        have h1 : childRecords (specTopFrom (x :: xs) k0) r1.id =
            childRecords (specTopFrom xs (k0 + 1)) r1.id := by
          rw [hid, specTopFrom_cons, childRecords_append,
            childRecords_seg_other1 x k0 i (by omega), List.nil_append]
        have h2 : ∀ r2 ∈ childRecords (specTopFrom xs (k0 + 1)) r1.id,
            childRecords (specTopFrom (x :: xs) k0) r2.id =
              childRecords (specTopFrom xs (k0 + 1)) r2.id := by
          intro r2 hr2
          have hmem2 := List.mem_filter.mp hr2
          have hpar : r2.parent = toString i := by
            have := hmem2.2
            rw [hid] at this
            exact beq_iff_eq.mp this
          obtain ⟨j, hj⟩ := specTopFrom_mem_parent xs (k0 + 1) i hmem2.1 hpar
          rw [hj, specTopFrom_cons, childRecords_append,
            childRecords_seg_other2 x k0 i j (by omega), List.nil_append]
        rw [h1, List.map_congr_left fun r2 hr2 => by rw [h2 r2 hr2]]
      rw [List.map_congr_left hcong]
      exact ih (k0 + 1) fun y hy => hNB y (List.mem_cons_of_mem _ hy)

/-- Reconstructing parent/child links from the `id`/`parent` fields of the
flattened output reproduces the original forest: same top-level nodes, same
children under each node, same grandchildren — hence the same node count,
names, and nesting depth. -/
theorem rebuilt_specFlatten (l : List N1) (h : ∀ x ∈ l, noBothN1 x) :
    rebuilt (specFlatten l) = skeletonOf l := by
  rw [rebuilt, specFlatten, childRecords_top_empty l 1]
  exact rebuilt_aux l 1 h

/-! ## Node count and pre-order names of a structured tree -/

def sizeN2 (s : N2) : ℕ := 1 + (s.subsubtopics.getD []).length

def sizeN1 (x : N1) : ℕ :=
  1 + ((x.subtopics.getD []).map sizeN2).sum + (x.subsubtopics.getD []).length

/-- Total number of nodes of the forest. -/
def treeSize (l : List N1) : ℕ := (l.map sizeN1).sum

/-- Pre-order names of a subtopics list. -/
def names2 : List N2 → List JVal
  | [] => []
  | s :: ss => .str s.name ::
      (((s.subsubtopics.getD []).map fun z => (.str z.name : JVal)) ++ names2 ss)

/-- Pre-order names of the forest. -/
def namesTop : List N1 → List JVal
  | [] => []
  | x :: xs => (.str x.name ::
      (names2 (x.subtopics.getD []) ++
        (x.subsubtopics.getD []).map fun z => (.str z.name : JVal))) ++
    namesTop xs

theorem spec3From_length (zs : List N3) (pid : String) :
    ∀ m0, (spec3From zs pid m0).length = zs.length := by
  induction zs with
  | nil => intro m0; rfl
  | cons z zs ih => intro m0; simp [spec3From, ih]

theorem spec2From_length (ss : List N2) (pid : String) :
    ∀ j0, (spec2From ss pid j0).length = (ss.map sizeN2).sum := by
  induction ss with
  | nil => intro j0; rfl
  | cons s ss ih =>
    intro j0
    simp [spec2From, spec3From_length, ih, sizeN2]
    omega

theorem specTopFrom_length (l : List N1) :
    ∀ k0, (specTopFrom l k0).length = treeSize l := by
  induction l with
  | nil => intro k0; rfl
  | cons x xs ih =>
    intro k0
    simp [specTopFrom, spec2From_length, spec3From_length, ih, treeSize, sizeN1]
    omega

theorem specFlatten_length (l : List N1) :
    (specFlatten l).length = treeSize l := specTopFrom_length l 1

theorem spec2From_map_name (ss : List N2) (pid : String) :
    ∀ j0, (spec2From ss pid j0).map FlatRec.name = names2 ss := by
  induction ss with
  | nil => intro j0; rfl
  | cons s ss ih =>
    intro j0
    simp [spec2From, spec3From_map_name, ih, names2]

theorem specTopFrom_map_name (l : List N1) :
    ∀ k0, (specTopFrom l k0).map FlatRec.name = namesTop l := by
  induction l with
  | nil => intro k0; rfl
  | cons x xs ih =>
    intro k0
    simp [specTopFrom, spec2From_map_name, spec3From_map_name, ih, namesTop]

theorem specFlatten_map_name (l : List N1) :
    (specFlatten l).map FlatRec.name = namesTop l := specTopFrom_map_name l 1

/-! ## Helpers for stating the claims -/

/-- The numeric `"value"` entries of a list of topic dicts. -/
def valuesOf : List JVal → Option (List ℚ)
  | [] => some []
  | x :: xs =>
    match x with
    | .obj kv2 =>
      match kv2.lookup "value" with
      | some (.num q) =>
        match valuesOf xs with
        | some r => some (q :: r)
        | none => none
      | _ => none
    | _ => none

/-- The top-level weights of a parsed tree. -/
def topValues (d : JVal) : Option (List ℚ) :=
  match d with
  | .obj kvs =>
    match kvs.lookup "topics" with
    | some (.arr xs) => valuesOf xs
    | _ => none
  | _ => none

/-- The top-level weights after the weight-repair step (`none` if the step
raised). -/
def topValuesAfterRepair (d : JVal) : Option (List ℚ) :=
  match distribute_values d with
  | .ok r => topValues r
  | .error _ => none

def isArr : JVal → Bool
  | .arr _ => true
  | _ => false

/-- The claim's acceptance predicate for C3: every node with a children
list has the children's weight sum within 0.01 of its own weight. -/
def within01N2 (s : N2) : Bool :=
  match s.subsubtopics with
  | none => true
  | some m => decide (|sumVals3 m - s.value| ≤ 1 / 100)

def within01N1 (x : N1) : Bool :=
  (match x.subtopics with
   | none => true
   | some l =>
     decide (|sumVals2 l - x.value| ≤ 1 / 100) && l.all within01N2) &&
  (match x.subsubtopics with
   | none => true
   | some m => decide (|sumVals3 m - x.value| ≤ 1 / 100))

def within01 (l : List N1) : Bool := l.all within01N1

theorem pyRound2_of_floor_lt (q : ℚ) (z : ℤ) (hf : ⌊q * 100⌋ = z)
    (hr : q * 100 - z < 1 / 2) : pyRound2 q = (z : ℚ) / 100 := by
  simp only [pyRound2, pyRoundInt, hf]
  rw [if_pos hr]

theorem pyRound2_of_floor_gt (q : ℚ) (z : ℤ) (hf : ⌊q * 100⌋ = z)
    (hr : 1 / 2 < q * 100 - z) : pyRound2 q = ((z : ℚ) + 1) / 100 := by
  simp only [pyRound2, pyRoundInt, hf]
  rw [if_neg (by linarith), if_pos hr]
  push_cast
  ring

theorem pyRound2_fifty : pyRound2 50 = 50 := by
  have hf : ⌊(50 : ℚ) * 100⌋ = 5000 := by
    norm_num
  rw [pyRound2_of_floor_lt 50 5000 hf (by norm_num)]
  norm_num

theorem pyRound2_ten : pyRound2 10 = 10 := by
  have hf : ⌊(10 : ℚ) * 100⌋ = 1000 := by
    norm_num
  rw [pyRound2_of_floor_lt 10 1000 hf (by norm_num)]
  norm_num

theorem pyRound2_10006 : pyRound2 (10006 / 1000) = 1001 / 100 := by
  have hf : ⌊(10006 / 1000 : ℚ) * 100⌋ = 1000 := by
    rw [Int.floor_eq_iff] <;> norm_num
  rw [pyRound2_of_floor_gt (10006 / 1000) 1000 hf (by norm_num)]
  norm_num

theorem pyRound2_10004 : pyRound2 (10004 / 1000) = 10 := by
  have hf : ⌊(10004 / 1000 : ℚ) * 100⌋ = 1000 := by
    rw [Int.floor_eq_iff] <;> norm_num
  rw [pyRound2_of_floor_lt (10004 / 1000) 1000 hf (by norm_num)]
  norm_num

theorem pyRound2_1002c : pyRound2 (1002 / 100) = 1002 / 100 := by
  have hf : ⌊(1002 / 100 : ℚ) * 100⌋ = 1002 := by
    norm_num
  rw [pyRound2_of_floor_lt (1002 / 100) 1002 hf (by norm_num)]
  norm_num

theorem pyRound2_10001 : pyRound2 (10001 / 1000) = 10 := by
  have hf : ⌊(10001 / 1000 : ℚ) * 100⌋ = 1000 := by
    rw [Int.floor_eq_iff] <;> norm_num
  rw [pyRound2_of_floor_lt (10001 / 1000) 1000 hf (by norm_num)]
  norm_num

/-! ## The claims -/

/-- C4: for every input sequence of documents, the partitioner produces
exactly 8 contiguous, non-overlapping groups; group `i` receives
`len/8 + 1` elements when `i < len % 8` and `len/8` otherwise; the group
sizes sum to the input length and differ pairwise by at most 1; and the
concatenation of the groups in order is the original sequence (groups may
be empty when there are fewer than 8 documents, and are still produced). -/
theorem c4_partition {α : Type} (docs : List α) :
    (partitionDocs docs).length = 8 ∧
    (partitionDocs docs).map List.length =
      (List.range 8).map (fun i =>
        docs.length / 8 + if i < docs.length % 8 then 1 else 0) ∧
    ((partitionDocs docs).map List.length).sum = docs.length ∧
    (∀ g1 ∈ partitionDocs docs, ∀ g2 ∈ partitionDocs docs,
      g1.length ≤ g2.length + 1) ∧
    (partitionDocs docs).flatten = docs := by
  have hbound : ∀ g ∈ partitionDocs docs,
      docs.length / 8 ≤ g.length ∧ g.length ≤ docs.length / 8 + 1 := by
    intro g hg
    have hmem : g.length ∈ (partitionDocs docs).map List.length :=
      List.mem_map_of_mem _ hg
    rw [partitionDocs_lengths] at hmem
    obtain ⟨i, _, hEq⟩ := List.mem_map.mp hmem
    split_ifs at hEq <;> omega
  exact ⟨partitionDocs_length docs, partitionDocs_lengths docs,
    partitionDocs_sum docs,
    fun g1 h1 g2 h2 => by
      have hb1 := hbound g1 h1
      have hb2 := hbound g2 h2
      omega,
    partitionDocs_flatten docs⟩

theorem c4_partition_witness :
    (partitionDocs [0, 1, 2, 3, 4, 5, 6, 7, 8, 9]).flatten =
      [0, 1, 2, 3, 4, 5, 6, 7, 8, 9] ∧
    (partitionDocs [0, 1, 2, 3, 4, 5, 6, 7, 8, 9]).length = 8 :=
  ⟨(c4_partition [0, 1, 2, 3, 4, 5, 6, 7, 8, 9]).2.2.2.2,
    (c4_partition [0, 1, 2, 3, 4, 5, 6, 7, 8, 9]).1⟩

/-- C5: every per-chunk failure — an exception from retrieval or the LLM
call, a JSON parse error, a weight-repair exception, or a validation
verdict of false — makes that chunk's result `None`; `None` results are
discarded and the merge stage still runs on the surviving list, which is
empty when every chunk fails.  No per-chunk failure aborts the pipeline. -/
theorem c5_fault_tolerance {α : Type} (docs : List α)
    (chunkCall : List α → Except PyErr String)
    (parse : String → Except PyErr JVal)
    (combine : List JVal → Except PyErr JVal) :
    (∀ e : PyErr, process_chunk (.error e) parse = none) ∧
    (∀ raw e, parse raw = .error e → process_chunk (.ok raw) parse = none) ∧
    (∀ raw j e, parse raw = .ok j → distribute_values j = .error e →
      process_chunk (.ok raw) parse = none) ∧
    (∀ raw j r, parse raw = .ok j → distribute_values j = .ok r →
      validate_response r = .ok false →
      process_chunk (.ok raw) parse = none) ∧
    extract_topics_async docs chunkCall parse combine =
      mergeStage combine
        (((partitionDocs docs).map fun ch =>
          process_chunk (chunkCall ch) parse).filterMap id) ∧
    ((∀ ch, process_chunk (chunkCall ch) parse = none) →
      extract_topics_async docs chunkCall parse combine =
        mergeStage combine []) := by
  refine ⟨fun e => rfl, ?_, ?_, ?_, rfl, ?_⟩
  · intro raw e h
    simp [process_chunk, h]
  · intro raw j e h1 h2
    simp [process_chunk, h1, h2]
  · intro raw j r h1 h2 h3
    simp [process_chunk, h1, h2, h3]
  · intro hall
    rw [extract_topics_async]
    have : ((partitionDocs docs).map fun ch =>
        process_chunk (chunkCall ch) parse).filterMap id = [] := by
      rw [List.filterMap_eq_nil]
      intro a ha
      obtain ⟨ch, _, rfl⟩ := List.mem_map.mp ha
      exact hall ch
    rw [this]

theorem c5_fault_tolerance_witness :
    process_chunk (.error .typeError)
      (fun _ => .error .jsonDecodeError) = none ∧
    extract_topics_async ([] : List ℕ) (fun _ => .error .typeError)
      (fun _ => .error .jsonDecodeError)
      (fun results => .ok (.obj [("topics", .arr results)])) =
      mergeStage (fun results => .ok (.obj [("topics", .arr results)])) [] :=
  ⟨(c5_fault_tolerance ([] : List ℕ) (fun _ => .error .typeError)
      (fun _ => .error .jsonDecodeError)
      (fun results => .ok (.obj [("topics", .arr results)]))).1 .typeError,
    (c5_fault_tolerance ([] : List ℕ) (fun _ => .error .typeError)
      (fun _ => .error .jsonDecodeError)
      (fun results => .ok (.obj [("topics", .arr results)]))).2.2.2.2.2
      fun ch => rfl⟩

/-- C7: flattening a merged tree (a list of schema-conforming topic nodes)
yields exactly the records the specification describes: a pre-order list in
which top-level nodes get ids "1", "2", "3", … in array order, each child's
id is its parent's id, a dot, and a 1-based child index restarting in every
children list, each record's parent field is its parent's id (empty at top
level), and name/value/citation/pages are copied from the node. -/
theorem c7_flatten_ids (l : List N1) :
    flatten_hierarchy (.arr (l.map encodeN1)) "" = .ok (specFlatten l) :=
  flatten_encode l

/-- C9: for a 3-level tree in which no node carries both children-list
kinds, the flattened output supports a full round trip: flattening succeeds
and produces the spec records, whose count is the tree's node count and
whose names are the tree's pre-order names, and rebuilding parent/child
links from the id/parent fields reproduces the original forest shape —
names and nesting — level by level. -/
theorem c9_roundtrip (l : List N1) (h : ∀ x ∈ l, noBothN1 x) :
    flatten_hierarchy (.arr (l.map encodeN1)) "" = .ok (specFlatten l) ∧
    (specFlatten l).length = treeSize l ∧
    (specFlatten l).map FlatRec.name = namesTop l ∧
    rebuilt (specFlatten l) = skeletonOf l :=
  ⟨flatten_encode l, specFlatten_length l, specFlatten_map_name l,
    rebuilt_specFlatten l h⟩

theorem c9_roundtrip_witness :
    rebuilt (specFlatten
      [⟨"A", 10, "ca", "p1", some [⟨"B", 10, "cb", "p2",
        some [⟨"C", 10, "cc", "p3"⟩]⟩], none⟩,
       ⟨"D", 90, "cd", "p4", none, some [⟨"E", 90, "ce", "p5"⟩]⟩]) =
      skeletonOf
      [⟨"A", 10, "ca", "p1", some [⟨"B", 10, "cb", "p2",
        some [⟨"C", 10, "cc", "p3"⟩]⟩], none⟩,
       ⟨"D", 90, "cd", "p4", none, some [⟨"E", 90, "ce", "p5"⟩]⟩] :=
  (c9_roundtrip _ (by
    intro x hx
    simp only [List.mem_cons, List.not_mem_nil, or_false] at hx
    rcases hx with rfl | rfl
    · exact .inr rfl
    · exact .inl rfl)).2.2.2

/-- C1 (counterexample): a parsed per-chunk tree with a single top-level
topic of weight 50 — a positive sum differing from 100 — leaves the
weight-repair step with its top-level weight still 50: the step never
rescales top-level weights by 100/sum. -/
theorem c1_counterexample :
    topValuesAfterRepair
      (encodeDoc [⟨"Revenue", 50, "w", "p", none, none⟩]) = some [50] ∧
    (0 : ℚ) < 50 ∧ (50 : ℚ) ≠ 100 := by
  have hd := distribute_encodeDoc
    ([⟨"Revenue", 50, "w", "p", none, none⟩] : List N1)
    (by
      intro x hx l hl
      rw [List.mem_singleton] at hx
      subst hx
      simp at hl)
  refine ⟨?_, by norm_num, by norm_num⟩
  rw [topValuesAfterRepair, hd]
  simp [topValues, encodeDoc, List.lookup, valuesOf, encodeN1, repairN1,
    pyRound2_fifty]

/-- C1 (amended): the weight-repair step applied between parsing and
validation does not renormalize top-level weights at all.  On any
schema-conforming tree (whose nonempty children lists have positive
citation word totals) it succeeds, acting as `repairN1` on each topic:
each top-level weight is merely rounded to 2 decimals — so the top-level
sum stays the sum of the rounded original weights, not 100 — while each
children list's weights are redistributed in proportion to the children's
citation word counts. -/
theorem c1_amended_no_renormalization (l : List N1)
    (h : ∀ x ∈ l, posTotalsN1 x) :
    distribute_values (encodeDoc l) = .ok (encodeDoc (l.map repairN1)) ∧
    (l.map repairN1).map N1.value = l.map fun x => pyRound2 x.value :=
  ⟨distribute_encodeDoc l h, by simp [repairN1]⟩

/-- A concrete one-topic tree used to instantiate C1's amended claim. -/
def c1tree : List N1 := [⟨"A", 50, "w", "p", none, none⟩]

theorem c1_amended_no_renormalization_witness :
    distribute_values (encodeDoc c1tree) =
      .ok (encodeDoc (c1tree.map repairN1)) ∧
    (c1tree.map repairN1).map N1.value =
      c1tree.map fun x => pyRound2 x.value :=
  c1_amended_no_renormalization c1tree
    (by
      intro x hx l hl
      rw [c1tree, List.mem_singleton] at hx
      subst hx
      simp at hl)

/-- C2 (counterexample): on the input `{"topics": 5}` — the top-level
`"topics"` key present but not a sequence — the Response Validator raises
`TypeError` instead of returning false: only `KeyError` is caught. -/
theorem c2_counterexample :
    validate_response (.obj [("topics", .num 5)]) = .error .typeError := rfl

/-- C2 (amended): the validator returns false (without raising) when the
`"topics"` key is missing, when a top-level node's weight field is missing
(the `KeyError` is caught), or when a top-level node's weight is
non-numeric; but it is not a total predicate: it raises `TypeError` when
`"topics"` is not iterable, and when a nested child's weight is
non-numeric (the error arises inside `sum(...)` and is not caught). -/
theorem c2_amended_totality_limits :
    (∀ kvs : List (String × JVal), kvs.lookup "topics" = none →
      validate_response (.obj kvs) = .ok false) ∧
    (∀ v : JVal, pyIter v = .error .typeError →
      validate_response (.obj [("topics", v)]) = .error .typeError) ∧
    (∀ (nm : String) (v : JVal), isNumInst v = false →
      validate_response (.obj [("topics",
        .arr [.obj [("name", .str nm), ("value", v)]])]) = .ok false) ∧
    (∀ kvs2 : List (String × JVal), kvs2.lookup "value" = none →
      validate_response (.obj [("topics", .arr [.obj kvs2])]) = .ok false) ∧
    (∀ (q : ℚ) (v2 : JVal), isNumInst v2 = false →
      validate_response (.obj [("topics", .arr [.obj [("value", .num q),
        ("subtopics", .arr [.obj [("value", v2)]])]])]) =
        .error .typeError) := by
  have hnum : ∀ v : JVal, isNumInst v = false → numVal v = none := by
    intro v hv
    cases v <;> simp [isNumInst, numVal] at hv ⊢
  refine ⟨?_, ?_, ?_, ?_, ?_⟩
  · intro kvs h
    simp [validate_response, getItem, h]
  · intro v h
    simp [validate_response, getItem, List.lookup, h]
  · intro nm v h
    simp [validate_response, getItem, List.lookup, pyIter, loopTopics,
      checkTopic, h]
  · intro kvs2 h
    simp [validate_response, getItem, List.lookup, pyIter, loopTopics,
      checkTopic, h]
  · intro q v2 h
    have hn := hnum v2 h
    simp [validate_response, getItem, List.lookup, pyIter, loopTopics,
      checkTopic, isNumInst, pyContains, sumItemValues, hn]

theorem c2_amended_totality_limits_witness :
    validate_response (.obj []) = .ok false ∧
    validate_response (.obj [("topics", .num 3)]) = .error .typeError ∧
    validate_response (.obj [("topics",
      .arr [.obj [("name", .str "T"), ("value", .str "x")]])]) = .ok false ∧
    validate_response (.obj [("topics", .arr [.obj [("name", .str "T")]])]) =
      .ok false ∧
    validate_response (.obj [("topics", .arr [.obj [("value", .num 10),
      ("subtopics", .arr [.obj [("value", .str "y")]])]])]) =
      .error .typeError :=
  ⟨c2_amended_totality_limits.1 [] rfl,
    c2_amended_totality_limits.2.1 (.num 3) rfl,
    c2_amended_totality_limits.2.2.1 "T" (.str "x") rfl,
    c2_amended_totality_limits.2.2.2.1 [("name", .str "T")] rfl,
    c2_amended_totality_limits.2.2.2.2 10 (.str "y") rfl⟩

/-- C3 (counterexample): a numeric 3-level tree whose only parent/child
pair differs by 0.002 — well within 0.01 — is nevertheless rejected by the
validator, because the code compares 2-decimal roundings for equality:
round(10.006, 2) = 10.01 ≠ 10.00 = round(10.004, 2). -/
theorem c3_counterexample :
    validate_response (encodeDoc
      [⟨"T", 10004 / 1000, "c", "p",
        some [⟨"S", 10006 / 1000, "c", "p",
          some [⟨"Z", 10006 / 1000, "c", "p"⟩]⟩], none⟩]) = .ok false ∧
    within01 [⟨"T", 10004 / 1000, "c", "p",
      some [⟨"S", 10006 / 1000, "c", "p",
        some [⟨"Z", 10006 / 1000, "c", "p"⟩]⟩], none⟩] = true := by
  constructor
  · rw [validate_encodeDoc]
    have hbeq : (pyRound2 ((10006 : ℚ) / 1000) ==
        pyRound2 ((10004 : ℚ) / 1000)) = false := by
      rw [beq_eq_false_iff_ne, pyRound2_10006, pyRound2_10004]
      norm_num
    simp [roundCheckTop, roundCheckN1, sumVals2, hbeq]
  · simp only [within01, within01N1, within01N2, List.all_cons, List.all_nil,
      sumVals2, sumVals3, List.map_cons, List.map_nil, List.sum_cons,
      List.sum_nil]
    norm_num [abs_le]

/-- C3 (amended): on every schema-conforming numeric 3-level tree the
validator's verdict is the round-equality check `roundCheckTop`: a node
with a `"subtopics"` list (and a subtopic with a `"subsubtopics"` list) is
checked by comparing the 2-decimal roundings of the children's sum and the
node's own weight for equality — not by a 0.01 distance bound — and a
`"subsubtopics"` list sitting directly on a top-level node is not checked
at all.  In particular a parent/child discrepancy of 0.02 (on 2-decimal
weights) is rejected and one of 0.001 is accepted. -/
theorem c3_amended_round_equality (l : List N1) :
    validate_response (encodeDoc l) = .ok (roundCheckTop l) ∧
    validate_response (encodeDoc [⟨"T", 10, "c", "p",
      some [⟨"S", 1002 / 100, "c", "p", none⟩], none⟩]) = .ok false ∧
    validate_response (encodeDoc [⟨"T", 10, "c", "p",
      some [⟨"S", 10001 / 1000, "c", "p", none⟩], none⟩]) = .ok true := by
  refine ⟨validate_encodeDoc l, ?_, ?_⟩
  · rw [validate_encodeDoc]
    have hbeq : (pyRound2 ((1002 : ℚ) / 100) == pyRound2 (10 : ℚ)) = false := by
      rw [beq_eq_false_iff_ne, pyRound2_1002c, pyRound2_ten]
      norm_num
    simp [roundCheckTop, roundCheckN1, roundCheckN2, sumVals2, hbeq]
  · rw [validate_encodeDoc]
    have hbeq : (pyRound2 ((10001 : ℚ) / 1000) == pyRound2 (10 : ℚ)) = true := by
      rw [beq_iff_eq, pyRound2_10001, pyRound2_ten]
    simp [roundCheckTop, roundCheckN1, roundCheckN2, sumVals2, hbeq]

/-- A concrete 3-level tree used to instantiate C3's and C7's statements. -/
def c3tree : List N1 :=
  [⟨"T", 10, "c", "p", some [⟨"S", 10, "cs", "ps",
    some [⟨"Z", 10, "cz", "pz"⟩]⟩], none⟩]

theorem c3_amended_round_equality_witness :
    validate_response (encodeDoc c3tree) = .ok (roundCheckTop c3tree) :=
  (c3_amended_round_equality c3tree).1

theorem c7_flatten_ids_witness :
    flatten_hierarchy (.arr (c3tree.map encodeN1)) "" =
      .ok (specFlatten c3tree) :=
  c7_flatten_ids c3tree

/-- C6 (counterexample): when the merge output's `"topics"` field is not a
sequence, the pipeline returns the plain success value `.ok []` — exactly
the value it returns for a legitimately empty merged topic list — so the
caller receives a bare empty list with no error indicator (the only
diagnostic is a print to stdout). -/
theorem c6_counterexample :
    extract_topics_async ([] : List ℕ) (fun _ => .error .typeError)
      (fun _ => .error .jsonDecodeError)
      (fun _ => .ok (.obj [("topics", .num 0)])) = .ok [] ∧
    extract_topics_async ([] : List ℕ) (fun _ => .error .typeError)
      (fun _ => .error .jsonDecodeError)
      (fun _ => .ok (.obj [("topics", .arr [])])) = .ok [] := by
  constructor
  · rfl
  · have hf := flatten_encode ([] : List N1)
    rw [List.map_nil] at hf
    simp [extract_topics_async, mergeStage, partitionDocs, chunksGo,
      process_chunk, pyGetD, List.lookup, hf, specFlatten, specTopFrom]

/-- C6 (amended): if the merge call returns a value whose `"topics"` entry
exists but is not a sequence, the pipeline returns the empty list as an
ordinary non-error result; the diagnostic goes only to stdout and no error
indicator is part of the value returned to the caller. -/
theorem c6_amended_silent_empty {α : Type} (docs : List α)
    (chunkCall : List α → Except PyErr String)
    (parse : String → Except PyErr JVal)
    (combine : List JVal → Except PyErr JVal) (final t : JVal)
    (h1 : combine (((partitionDocs docs).map fun ch =>
      process_chunk (chunkCall ch) parse).filterMap id) = .ok final)
    (h2 : pyGetD final "topics" .null = .ok t)
    (h3 : isArr t = false) :
    extract_topics_async docs chunkCall parse combine = .ok [] := by
  rw [extract_topics_async, mergeStage, h1]
  simp only [h2]
  cases t <;> simp [isArr] at h3 ⊢

theorem c6_amended_silent_empty_witness :
    extract_topics_async ([] : List ℕ) (fun _ => .error .typeError)
      (fun _ => .error .jsonDecodeError)
      (fun _ => .ok (.obj [("topics", .str "oops")])) = .ok [] :=
  c6_amended_silent_empty ([] : List ℕ) (fun _ => .error .typeError)
    (fun _ => .error .jsonDecodeError)
    (fun _ => .ok (.obj [("topics", .str "oops")]))
    (.obj [("topics", .str "oops")]) (.str "oops") rfl rfl rfl

/-- C8: a node carrying both a nonempty `"subtopics"` and a nonempty
`"subsubtopics"` list is flattened without failing: both lists are
flattened under the same parent id with independent 1-based counters, so
the first subtopic and the first sub-subtopic both receive the dotted id
"1.1". -/
theorem c8_both_children (nm : String) (v : ℚ) (cit pg : String)
    (subs : List N2) (ssubs : List N3) (h1 : subs ≠ []) (h2 : ssubs ≠ []) :
    flatten_hierarchy
        (.arr [encodeN1 ⟨nm, v, cit, pg, some subs, some ssubs⟩]) "" =
      .ok (⟨"1", "", .str nm, .num v, .str cit, .str pg⟩ ::
        (spec2From subs "1" 1 ++ spec3From ssubs "1" 1)) ∧
    (spec2From subs "1" 1).head?.map FlatRec.id = some "1.1" ∧
    (spec3From ssubs "1" 1).head?.map FlatRec.id = some "1.1" := by
  refine ⟨?_, ?_, ?_⟩
  · have hf := flatten_encode [⟨nm, v, cit, pg, some subs, some ssubs⟩]
    rw [List.map_cons, List.map_nil] at hf
    rw [hf]
    have h1s : (toString (1 : ℕ) : String) = "1" := rfl
    simp [specFlatten, specTopFrom, h1s]
  · obtain ⟨s, rest, rfl⟩ := List.exists_cons_of_ne_nil h1
    rw [spec2From, List.cons_append, List.head?_cons]
    rfl
  · obtain ⟨z, rest, rfl⟩ := List.exists_cons_of_ne_nil h2
    rw [spec3From, List.head?_cons]
    rfl

theorem c8_both_children_witness :
    (spec2From [⟨"S", 5, "cs", "ps", none⟩] "1" 1).head?.map FlatRec.id =
      some "1.1" ∧
    (spec3From [⟨"Z", 5, "cz", "pz"⟩] "1" 1).head?.map FlatRec.id =
      some "1.1" :=
  ⟨(c8_both_children "T" 5 "c" "p" [⟨"S", 5, "cs", "ps", none⟩]
      [⟨"Z", 5, "cz", "pz"⟩] (by simp) (by simp)).2.1,
    (c8_both_children "T" 5 "c" "p" [⟨"S", 5, "cs", "ps", none⟩]
      [⟨"Z", 5, "cz", "pz"⟩] (by simp) (by simp)).2.2⟩

/-- C10: a successfully parsed tree containing a node with a nonempty
`"subtopics"` list whose children's citations all have zero words makes
the proportional weight-redistribution raise `ZeroDivisionError`
(`total_sub_lengths` is 0); inside `process_chunk` the surrounding
`except Exception` handler catches it and the chunk is downgraded to a
skipped result (`None`) instead of crashing the pipeline. -/
theorem c10_zero_division (nm cit pg : String) (v : ℚ) (subs : List N2)
    (rest : List JVal) (raw : String) (hne : subs ≠ [])
    (hz : ∀ s ∈ subs, wordCount s.citation = 0) :
    distribute_values (.obj [("topics",
      .arr (encodeN1 ⟨nm, v, cit, pg, some subs, none⟩ :: rest))]) =
      .error .zeroDivisionError ∧
    process_chunk (.ok raw) (fun _ => .ok (.obj [("topics",
      .arr (encodeN1 ⟨nm, v, cit, pg, some subs, none⟩ :: rest))])) =
      none := by
  have hmain : distribute_values (.obj [("topics",
      .arr (encodeN1 ⟨nm, v, cit, pg, some subs, none⟩ :: rest))]) =
      .error .zeroDivisionError := by
    obtain ⟨s, rest2, rfl⟩ := List.exists_cons_of_ne_nil hne
    have htot : totalWords2 (s :: rest2) = 0 := by
      rw [totalWords2, List.sum_eq_zero]
      intro y hy
      obtain ⟨s2, hs2, rfl⟩ := List.mem_map.mp hy
      exact hz s2 hs2
    have hcit : totalCitWords ((s :: rest2).map encodeN2) 0 = .ok 0 := by
      rw [totalCitWords_encodeN2, htot]
    rw [List.map_cons] at hcit
    have hsub : distribSub 0 (pyRound2 v) (encodeN2 s) =
        .error .zeroDivisionError := by
      simp [distribSub, citWordCount_encodeN2]
    simp [distribute_values, getItem, List.lookup, pyIter, eachElem,
      distribTopic, encodeN1, pyGetD, pyWordCount, numVal, pyContains,
      setItem, setPairs, hcit, hsub]
  exact ⟨hmain, by simp [process_chunk, hmain]⟩

theorem c10_zero_division_witness :
    distribute_values (.obj [("topics",
      .arr (encodeN1 ⟨"T", 30, "c d", "p", some [⟨"S", 10, "", "p", none⟩],
        none⟩ :: []))]) = .error .zeroDivisionError ∧
    process_chunk (.ok "raw") (fun _ => .ok (.obj [("topics",
      .arr (encodeN1 ⟨"T", 30, "c d", "p", some [⟨"S", 10, "", "p", none⟩],
        none⟩ :: []))])) = none :=
  c10_zero_division "T" "c d" "p" 30 [⟨"S", 10, "", "p", none⟩] [] "raw"
    (by simp)
    (by
      intro s hs
      rw [List.mem_singleton] at hs
      subst hs
      exact wordCount_empty)

end Genie
